import Mathlib

/-!
Shallow embedding of the pedestrian crosswalk simulation
(`crosswalk_free_flow.py`): grid topology, cell occupancy, the four agent
classes (TypeA "movers", TypeB "distance minimizers" / path followers,
TypeC "tourists", TypeD obstacles), the swap-negotiation protocol, the
per-turn phase sequence and the cleanup pass.

Modelling conventions:
* A cell's `loc` is the pair `(x, y)` with `0 ≤ x < width` and
  `0 ≤ y < height`; the source's grid array is indexed `grid[y][x]`
  (row major), and the occupancy table below mirrors that layout.
* The source compares Euclidean distances produced by `math.sqrt`.
  Every such comparison is reproduced exactly by comparing squared
  distances over ℤ: `sqrt` is strictly monotone, and for the coordinate
  magnitudes a grid can hold the float rounding of `math.sqrt` cannot
  reorder two distinct squared distances.
* Calls to `random.shuffle`, `random.choice` and `random.randint` are
  explicit parameters (pool orders, a choice index, a coin).
* Agents are identified by their index in `World.agents`; the Python
  object references stored in `Cell.occupant`, in the agent pools and in
  `agent.cell` become those indices and `(x, y)` locations.
-/

abbrev Pos := Int × Int

/-- Squared Euclidean distance between two cell locations.  This embeds
every comparison the source makes on `norm(a, b)` and on the sort keys
`math.sqrt(vec[0]*vec[0] + vec[1]*vec[1])`. -/
def dist2 (p q : Pos) : Int :=
  (q.1 - p.1) * (q.1 - p.1) + (q.2 - p.2) * (q.2 - p.2)

/-- Component snapping used by `shortest_path`: the source divides the
direction vector by its (positive) norm and then maps each component to
1, -1 or 0 by sign, which the division does not change. -/
def sgn (z : Int) : Int := if 0 < z then 1 else if z < 0 then -1 else 0

/-- The source's `shortest_path(a, b)`: the coordinates adjacent to `a`
obtained by sign-snapping the direction vector towards `b`; if the two
locations coincide it returns the location itself (no division by a zero
norm). -/
def shortest_path (loc des : Pos) : Pos :=
  if loc = des then loc
  else (loc.1 + sgn (des.1 - loc.1), loc.2 + sgn (des.2 - loc.2))

/-- Chebyshev distance between two locations (used to state the spec's
Moore-neighborhood property). -/
def cheb (p q : Pos) : Nat := max (q.1 - p.1).natAbs (q.2 - p.2).natAbs

/-- Offsets `(delta_i, delta_j)` in the order produced by the two nested
`range(-1, 2)` loops of `Grid.initialize` (`delta_i`, the row offset, is
the outer loop). -/
def deltas : List (Int × Int) :=
  [(-1, -1), (-1, 0), (-1, 1), (0, -1), (0, 0), (0, 1), (1, -1), (1, 0), (1, 1)]

/-- The adjacency list `Grid.initialize` precomputes for the cell at
`p = (x, y)`: the cells `grid[y + delta_i][x + delta_j]` whenever both
indices are in range (negative indices are rejected explicitly and too
large ones raise `IndexError`, so there is no wraparound).  The `(0, 0)`
offset is not excluded, so the cell itself is a member of its own list. -/
def adjacentCells (w h : Nat) (p : Pos) : List Pos :=
  deltas.filterMap (fun d =>
    if 0 ≤ p.1 + d.2 ∧ p.1 + d.2 < (w : Int) ∧ 0 ≤ p.2 + d.1 ∧ p.2 + d.1 < (h : Int)
    then some (p.1 + d.2, p.2 + d.1) else none)

/-- The four agent classes of the simulation. -/
inductive Kind
  | A
  | B
  | C
  | D
deriving DecidableEq, Repr

/-- One agent: class, current cell, destination cell, the per-turn
`moved` flag, the TypeC lifetime `move_count`, and the `moves` log. -/
structure Agent where
  kind : Kind
  pos : Pos
  dest : Pos
  moved : Bool
  moveCount : Nat
  moves : List (Pos × Pos)
deriving DecidableEq, Repr

instance : Inhabited Agent := ⟨⟨Kind.D, (0, 0), (0, 0), false, 0, []⟩⟩

/-- The whole simulation state: grid dimensions, the agent store, the
per-cell occupant table (`occ[y][x]`, mirroring `grid[row][col]`), the
four active pools, the three finished pools and the turn counter. -/
structure World where
  width : Nat
  height : Nat
  agents : List Agent
  occ : List (List (Option Nat))
  activeA : List Nat
  activeB : List Nat
  activeC : List Nat
  obstacles : List Nat
  finishedA : List Nat
  finishedB : List Nat
  finishedC : List Nat
  turn : Nat
deriving DecidableEq, Repr

def World.agent (w : World) (i : Nat) : Agent := w.agents.getD i default

def World.setAgent (w : World) (i : Nat) (a : Agent) : World :=
  { w with agents := w.agents.set i a }

/-- The location `p` lies inside the grid. -/
def InB (w : World) (p : Pos) : Prop :=
  0 ≤ p.1 ∧ p.1 < (w.width : Int) ∧ 0 ≤ p.2 ∧ p.2 < (w.height : Int)

instance (w : World) (p : Pos) : Decidable (InB w p) :=
  decidable_of_iff (0 ≤ p.1 ∧ p.1 < (w.width : Int) ∧ 0 ≤ p.2 ∧ p.2 < (w.height : Int)) Iff.rfl

/-- `occGet w p` is `cell.occupant` for the cell at `p` (and `none` off
the grid, where the source has no cell at all). -/
def occGet (w : World) (p : Pos) : Option Nat :=
  if InB w p then (w.occ.getD p.2.toNat []).getD p.1.toNat none else none

/-- Write `cell.occupant = v` at location `p`. -/
def setOcc (w : World) (p : Pos) (v : Option Nat) : World :=
  { w with occ := w.occ.set p.2.toNat ((w.occ.getD p.2.toNat []).set p.1.toNat v) }

/-- Ids of the agents currently on the board: members of the three
active pools plus the obstacle pool. -/
def activeIds (w : World) : List Nat :=
  w.activeA ++ w.activeB ++ w.activeC ++ w.obstacles

/-- The occupancy table has one row per grid row and one entry per cell
(a representation fact about the embedding, automatic for the Python
grid of `Cell` objects). -/
def WFdims (w : World) : Prop :=
  w.occ.length = w.height ∧ ∀ row ∈ w.occ, row.length = w.width

instance (w : World) : Decidable (WFdims w) := by
  unfold WFdims; infer_instance

/-- The occupancy invariant: every active or obstacle agent's cell
records that agent as its occupant (`agent.cell.occupant == agent`), and
every occupant entry on the board is backed by an active or obstacle
agent standing on exactly that cell.  Together with the representation
(each cell stores at most one occupant reference) this is the spec's
"every cell holds at most one occupant" invariant. -/
def OccInv (w : World) : Prop :=
  (∀ a ∈ activeIds w, a < w.agents.length ∧ occGet w (w.agent a).pos = some a) ∧
  (∀ x, x < w.width → ∀ y, y < w.height →
    ∀ a ∈ (occGet w ((x : Int), (y : Int))).toList,
      a ∈ activeIds w ∧ (w.agent a).pos = ((x : Int), (y : Int)))

instance (w : World) : Decidable (OccInv w) := by
  unfold OccInv; infer_instance

/-- First element of `l` minimising the squared distance to `dest`.
This embeds `sorted(choice_pair, key=lambda x: x[1])[0][0]`: Python's
sort is stable, so among equal keys the element that was enumerated
first wins. -/
def bestBy (dest : Pos) : List Pos → Option Pos
  | [] => none
  | c :: cs => some (cs.foldl (fun b x => if dist2 x dest < dist2 b dest then x else b) c)

/-- The candidate cells of `TypeA.move`: adjacent, unoccupied, and not
the agent's own cell.  The source's further test `j.symbol != "D"` is
vacuous: `Cell.symbol` is set to `"X"` at construction and never
reassigned (obstacles occupy cells but do not relabel them). -/
def TypeA.choices (w : World) (i : Nat) : List Pos :=
  (adjacentCells w.width w.height (w.agent i).pos).filter
    (fun p => decide (occGet w p = none ∧ p ≠ (w.agent i).pos))

/-- `TypeA.move`: if not yet moved, go to the unoccupied non-self
neighbor closest to the destination (if any), log the step and set the
`moved` flag; an agent that already moved does nothing. -/
def TypeA.move (w : World) (i : Nat) : World :=
  let a := w.agent i
  if a.moved then w
  else
    let start := a.pos
    match bestBy a.dest (TypeA.choices w i) with
    | some c =>
        let w₁ := setOcc w start none
        let w₂ := setOcc w₁ c (some i)
        w₂.setAgent i { a with pos := c, moves := a.moves ++ [(start, c)], moved := true }
    | none => w.setAgent i { a with moves := a.moves ++ [(start, start)], moved := true }

/-- `TypeA.check_swap(cell)`: accept iff the offered cell is strictly
closer to the destination (`norm(cell, end) < norm(self.cell, end)`) and
the agent has not yet moved; accepting sets the `moved` flag. -/
def TypeA.check_swap (w : World) (j : Nat) (reqPos : Pos) : Bool × World :=
  let a := w.agent j
  if dist2 reqPos a.dest < dist2 a.pos a.dest ∧ a.moved = false then
    (true, w.setAgent j { a with moved := true })
  else (false, w)

/-- `TypeB.check_swap(cell)`: accept iff the offered cell is exactly the
agent's `shortest_path` cell and it has not yet moved; accepting sets
the `moved` flag. -/
def TypeB.check_swap (w : World) (j : Nat) (reqPos : Pos) : Bool × World :=
  let a := w.agent j
  if shortest_path a.pos a.dest = reqPos ∧ a.moved = false then
    (true, w.setAgent j { a with moved := true })
  else (false, w)

/-- `TypeC.check_swap(cell)`: an unconditional coin flip; the state (in
particular the `moved` flag) is untouched. -/
def TypeC.check_swap (w : World) (coin : Bool) : Bool × World := (coin, w)

/-- `TypeD.check_swap(cell)` is textually identical to
`TypeB.check_swap`. -/
def TypeD.check_swap (w : World) (j : Nat) (reqPos : Pos) : Bool × World :=
  TypeB.check_swap w j reqPos

/-- Dynamic dispatch of `best_choice.occupant.check_swap(self.cell)` on
the occupant's class. -/
def dispatchSwap (w : World) (j : Nat) (reqPos : Pos) (coin : Bool) : Bool × World :=
  match (w.agent j).kind with
  | Kind.A => TypeA.check_swap w j reqPos
  | Kind.B => TypeB.check_swap w j reqPos
  | Kind.C => TypeC.check_swap w coin
  | Kind.D => TypeD.check_swap w j reqPos

/-- `TypeB.shortest_path_between`: among the adjacent cells other than
the agent's own (occupied or not; the `j.symbol != "D"` test is again
vacuous) return the location closest to the destination, or the agent's
own location if there are no candidates.  When the agent has already
moved the source's `cellul` variable is unbound and the final
`return cellul.loc` raises; that branch is modelled as `none`. -/
def TypeB.choicesB (w : World) (i : Nat) : List Pos :=
  (adjacentCells w.width w.height (w.agent i).pos).filter
    (fun p => decide (p ≠ (w.agent i).pos))

def TypeB.shortest_path_between (w : World) (i : Nat) : Option Pos :=
  let a := w.agent i
  if a.moved then none
  else some ((bestBy a.dest (TypeB.choicesB w i)).getD a.pos)

/-- `TypeB.move`: look up the preferred cell by coordinates in the
adjacency list; if it is free, move there; if it is occupied, ask its
occupant for a swap and, when the occupant accepts and is not an
obstacle, exchange the two cells; log the step and set `moved`.  `none`
models the two unreachable runtime errors (unbound `cellul`, and
`best_choice` remaining `None` before `.occupant` is read). -/
def TypeB.move (w : World) (i : Nat) (coin : Bool) : Option World :=
  let a := w.agent i
  if a.moved then some w
  else
    let start := a.pos
    match TypeB.shortest_path_between w i with
    | none => none
    | some coords =>
      match (adjacentCells w.width w.height a.pos).find? (fun p => decide (p = coords)) with
      | none => none
      | some best =>
        match occGet w best with
        | some j =>
          let r := dispatchSwap w j start coin
          let w₁ := r.2
          if r.1 = true ∧ (w₁.agent j).kind ≠ Kind.D then
            let w₂ := w₁.setAgent i { w₁.agent i with pos := best }
            let w₃ := setOcc w₂ best (some i)
            let w₄ := w₃.setAgent j { w₃.agent j with pos := start }
            let w₅ := setOcc w₄ start (some j)
            some (w₅.setAgent i
              { w₅.agent i with
                moves := (w₅.agent i).moves ++ [(start, (w₅.agent i).pos)], moved := true })
          else
            some (w₁.setAgent i
              { w₁.agent i with
                moves := (w₁.agent i).moves ++ [(start, (w₁.agent i).pos)], moved := true })
        | none =>
          let w₂ := setOcc w start none
          let w₃ := setOcc w₂ best (some i)
          some (w₃.setAgent i
            { a with pos := best, moves := a.moves ++ [(start, best)], moved := true })

/-- `TypeC.move1` (random walk): pick an arbitrary unoccupied adjacent
cell (the `random.choice` index is the parameter `r`), move there and
log the step if one exists, and always increment `move_count`.  The
`moved` flag is neither consulted nor set. -/
def TypeC.choices1 (w : World) (i : Nat) : List Pos :=
  (adjacentCells w.width w.height (w.agent i).pos).filter
    (fun p => decide (occGet w p = none))

def TypeC.move1 (w : World) (i : Nat) (r : Nat) : World :=
  let a := w.agent i
  let choices := TypeC.choices1 w i
  let w₁ :=
    match choices with
    | [] => w
    | _ :: _ =>
      let c := choices.getD (r % choices.length) a.pos
      let u₁ := setOcc w a.pos none
      let u₂ := setOcc u₁ c (some i)
      u₂.setAgent i { a with pos := c, moves := a.moves ++ [(a.pos, c)] }
  w₁.setAgent i { w₁.agent i with moveCount := (w₁.agent i).moveCount + 1 }

/-- `TypeC.move2` (greedy phase) is a verbatim copy of `TypeA.move`
minus the vacuous `j.symbol != "D"` test; in particular `move_count` is
not incremented. -/
def TypeC.move2 (w : World) (i : Nat) : World := TypeA.move w i

/-- `TypeC.move3` (idle phase): log a self-loop step and increment
`move_count`; the `moved` flag is neither consulted nor set. -/
def TypeC.move3 (w : World) (i : Nat) : World :=
  let a := w.agent i
  w.setAgent i { a with moves := a.moves ++ [(a.pos, a.pos)], moveCount := a.moveCount + 1 }

/-- Effect of `for a in pool: if rem(a): pool.remove(a)` on a list of
distinct ids: `list.remove` shifts the successor of a removed element
into the iterator's current slot, and the iterator then steps past it,
so the element directly after a removed one is never examined.  Returns
the kept and the removed ids, each in scan order. -/
def scanRemove (rem : Nat → Bool) : List Nat → List Nat × List Nat
  | [] => ([], [])
  | [a] => if rem a then ([], [a]) else ([a], [])
  | a :: b :: rest =>
    if rem a then
      let p := scanRemove rem rest
      (b :: p.1, a :: p.2)
    else
      let p := scanRemove rem (b :: rest)
      (a :: p.1, p.2)

/-- Clear `agent.cell.occupant` for each removed agent (the scan's only
effect on the board). -/
def clearOccs (w : World) (l : List Nat) : World :=
  l.foldl (fun u i => setOcc u (u.agent i).pos none) w

/-- Removal condition for TypeA and TypeB pools: `a.end == a.cell`
(cell objects are unique per location, so object equality is location
equality). -/
def atDest (w : World) (i : Nat) : Bool :=
  decide ((w.agent i).pos = (w.agent i).dest)

/-- Removal condition for the TypeC pool:
`c.end == c.cell or c.move_count > MAX_C_MOVES` with `MAX_C_MOVES = 40`. -/
def tcDone (w : World) (i : Nat) : Bool :=
  decide ((w.agent i).pos = (w.agent i).dest ∨ 40 < (w.agent i).moveCount)

/-- The TypeA block of `Grid.clean_up`: scan the pool with the Python
removal loop, clear removed agents' cells and append them to the
finished pool.  The removal condition only reads agent fields the scan
never mutates, so evaluating it against the pre-scan world is exact. -/
def Grid.cleanPoolA (w : World) : World :=
  let pa := scanRemove (atDest w) w.activeA
  { clearOccs w pa.2 with activeA := pa.1, finishedA := w.finishedA ++ pa.2 }

/-- The TypeB block of `Grid.clean_up`. -/
def Grid.cleanPoolB (w : World) : World :=
  let pb := scanRemove (atDest w) w.activeB
  { clearOccs w pb.2 with activeB := pb.1, finishedB := w.finishedB ++ pb.2 }

/-- The TypeC block of `Grid.clean_up` (destination reached, or more
than `MAX_C_MOVES = 40` counted moves). -/
def Grid.cleanPoolC (w : World) : World :=
  let pc := scanRemove (tcDone w) w.activeC
  { clearOccs w pc.2 with activeC := pc.1, finishedC := w.finishedC ++ pc.2 }

/-- `Grid.clean_up`: the three pool blocks, in source order. -/
def Grid.clean_up (w : World) : World :=
  Grid.cleanPoolC (Grid.cleanPoolB (Grid.cleanPoolA w))

/-- The explicit nondeterminism of one `Grid.play_turn` call: the three
pool shuffles, the tourists' coin flips (keyed by the requesting
agent), the random-walk choices (keyed by the walking agent), and the
turn index and total turn count that select the tourist mode. -/
structure TurnParams where
  piA : List Nat
  piB : List Nat
  piC : List Nat
  coins : Nat → Bool
  rand : Nat → Nat
  turnIdx : Nat
  nTurn : Nat

/-- Mode selection for a TypeC agent inside `Grid.play_turn`:
`turn <= Nturn/3` picks `move2`, `Nturn/3 < turn <= Nturn*2/3` picks
`move3`, `Nturn*2/3 < turn <= Nturn` picks `move1`, and otherwise the
agent does nothing.  The float divisions compare exactly like the
rational ones for any realistic turn count, so the guards are scaled
by 3. -/
def TypeC.phaseMove (w : World) (i : Nat) (P : TurnParams) : World :=
  if 3 * P.turnIdx ≤ P.nTurn then TypeC.move2 w i
  else if 3 * P.turnIdx ≤ 2 * P.nTurn then TypeC.move3 w i
  else if P.turnIdx ≤ P.nTurn then TypeC.move1 w i (P.rand i)
  else w

/-- `agent.reset()` over a pool: clear every member's `moved` flag. -/
def resetPool (w : World) (l : List Nat) : World :=
  l.foldl (fun u i => u.setAgent i { u.agent i with moved := false }) w

/-- The board state at the start of the TypeB phase: the TypeA pool is
shuffled to `piA` and each member moves, the TypeB pool is shuffled to
`piB`, and the first `clean_up` of the turn runs. -/
def moverPhaseState (w : World) (piA piB : List Nat) : World :=
  Grid.clean_up { piA.foldl TypeA.move { w with activeA := piA } with activeB := piB }

/-- `Grid.play_turn`: TypeA phase, cleanup, TypeB phase (iterating the
post-cleanup pool, as the source shuffles `playerBs` before the first
`clean_up`), cleanup, TypeC phase in the mode picked from the turn
index, cleanup, reset of the three active pools, and the turn counter
increment.  `none` propagates a TypeB runtime error. -/
def Grid.play_turn (w : World) (P : TurnParams) : Option World :=
  let w₄ := moverPhaseState w P.piA P.piB
  match w₄.activeB.foldlM (fun u i => TypeB.move u i (P.coins i)) w₄ with
  | none => none
  | some w₅ =>
    let w₆ := Grid.clean_up w₅
    let w₇ := { w₆ with activeC := P.piC }
    let w₈ := P.piC.foldl (fun u i => TypeC.phaseMove u i P) w₇
    let w₉ := Grid.clean_up w₈
    let w₁₀ := resetPool (resetPool (resetPool w₉ w₉.activeA) w₉.activeB) w₉.activeC
    some { w₁₀ with turn := w₁₀.turn + 1 }

/-- Any finite number of turns. -/
def Grid.playTurns (w : World) (ps : List TurnParams) : Option World :=
  ps.foldlM Grid.play_turn w

/-! ### Concrete grid states used as test inputs -/

/-- A 3-by-3 state with one agent of each class: a mover at the origin
heading for the far corner, a path follower heading back, a tourist,
and an obstacle parked on its own destination. -/
def Wmix : World :=
  { width := 3, height := 3,
    agents := [⟨Kind.A, (0, 0), (2, 2), false, 0, []⟩,
               ⟨Kind.B, (2, 0), (0, 0), false, 0, []⟩,
               ⟨Kind.C, (0, 2), (2, 2), false, 0, []⟩,
               ⟨Kind.D, (2, 2), (2, 2), false, 0, []⟩],
    occ := [[some 0, none, some 1], [none, none, none], [some 2, none, some 3]],
    activeA := [0], activeB := [1], activeC := [2], obstacles := [3],
    finishedA := [], finishedB := [], finishedC := [], turn := 0 }

/-- A 2-by-1 state with two movers, both standing on their
destinations: the input on which the cleanup scan skips an agent. -/
def W2 : World :=
  { width := 2, height := 1,
    agents := [⟨Kind.A, (0, 0), (0, 0), false, 0, []⟩,
               ⟨Kind.A, (1, 0), (1, 0), false, 0, []⟩],
    occ := [[some 0, some 1]],
    activeA := [0, 1], activeB := [], activeC := [], obstacles := [],
    finishedA := [], finishedB := [], finishedC := [], turn := 0 }

/-- A 3-by-1 corridor: an obstacle sits on the mover's destination, so
the only free neighbor leads away from it. -/
def W3 : World :=
  { width := 3, height := 1,
    agents := [⟨Kind.D, (0, 0), (0, 0), false, 0, []⟩,
               ⟨Kind.A, (1, 0), (0, 0), false, 0, []⟩],
    occ := [[some 0, some 1, none]],
    activeA := [1], activeB := [], activeC := [], obstacles := [0],
    finishedA := [], finishedB := [], finishedC := [], turn := 0 }

/-- A 2-by-1 state with a single tourist. -/
def WC : World :=
  { width := 2, height := 1,
    agents := [⟨Kind.C, (0, 0), (9, 9), false, 0, []⟩],
    occ := [[some 0, none]],
    activeA := [], activeB := [], activeC := [0], obstacles := [],
    finishedA := [], finishedB := [], finishedC := [], turn := 0 }

/-- A 2-by-1 state with two tourists whose lifetime move counters both
exceed the cap. -/
def W8 : World :=
  { width := 2, height := 1,
    agents := [⟨Kind.C, (0, 0), (9, 9), false, 41, []⟩,
               ⟨Kind.C, (1, 0), (9, 9), false, 41, []⟩],
    occ := [[some 0, some 1]],
    activeA := [], activeB := [], activeC := [0, 1], obstacles := [],
    finishedA := [], finishedB := [], finishedC := [], turn := 0 }

/-- A 1-by-1 state holding a single obstacle. -/
def W9w : World :=
  { width := 1, height := 1,
    agents := [⟨Kind.D, (0, 0), (0, 0), false, 0, []⟩],
    occ := [[some 0]],
    activeA := [], activeB := [], activeC := [], obstacles := [0],
    finishedA := [], finishedB := [], finishedC := [], turn := 0 }

/-- Turn parameters with empty shuffle orders. -/
def P0 : TurnParams :=
  { piA := [], piB := [], piC := [], coins := fun _ => false, rand := fun _ => 0,
    turnIdx := 0, nTurn := 1 }

/-! ### Basic facts about the state accessors -/

theorem agent_setAgent_self (w : World) (i : Nat) (a : Agent) (h : i < w.agents.length) :
    (w.setAgent i a).agent i = a := by
  simp [World.setAgent, World.agent, List.getD_eq_getElem?_getD, List.getElem?_set_self h]

theorem agent_setAgent_ne (w : World) (i j : Nat) (a : Agent) (h : i ≠ j) :
    (w.setAgent i a).agent j = w.agent j := by
  simp [World.setAgent, World.agent, List.getD_eq_getElem?_getD, List.getElem?_set_ne h]

theorem agent_setAgent_big (w : World) (i j : Nat) (a : Agent) (h : w.agents.length ≤ i) :
    (w.setAgent i a).agent j = w.agent j := by
  simp [World.setAgent, World.agent, List.set_eq_of_length_le h]

theorem occGet_setAgent (w : World) (i : Nat) (a : Agent) (p : Pos) :
    occGet (w.setAgent i a) p = occGet w p := rfl

theorem agent_setOcc (w : World) (p : Pos) (v : Option Nat) (i : Nat) :
    (setOcc w p v).agent i = w.agent i := rfl

theorem activeIds_setOcc (w : World) (p : Pos) (v : Option Nat) :
    activeIds (setOcc w p v) = activeIds w := rfl

theorem activeIds_setAgent (w : World) (i : Nat) (a : Agent) :
    activeIds (w.setAgent i a) = activeIds w := rfl

theorem length_setAgent (w : World) (i : Nat) (a : Agent) :
    (w.setAgent i a).agents.length = w.agents.length := by
  simp [World.setAgent]

theorem WFdims_setAgent (w : World) (i : Nat) (a : Agent) (h : WFdims w) :
    WFdims (w.setAgent i a) := h

theorem InB_setOcc (w : World) (p q : Pos) (v : Option Nat) :
    InB (setOcc w p v) q ↔ InB w q := Iff.rfl

theorem occGet_out (w : World) (p : Pos) (h : ¬ InB w p) : occGet w p = none := by
  simp [occGet, h]

theorem InB_of_occGet_some (w : World) (p : Pos) (a : Nat) (h : occGet w p = some a) :
    InB w p := by
  by_contra hb
  simp [occGet, hb] at h

theorem toNat_lt_of_InB_left (w : World) (p : Pos) (h : InB w p) : p.1.toNat < w.width := by
  obtain ⟨h1, h2, h3, h4⟩ := h; omega

theorem toNat_lt_of_InB_right (w : World) (p : Pos) (h : InB w p) : p.2.toNat < w.height := by
  obtain ⟨h1, h2, h3, h4⟩ := h; omega

theorem WFdims_setOcc (w : World) (p : Pos) (v : Option Nat) (hd : WFdims w) (hp : InB w p) :
    WFdims (setOcc w p v) := by
  obtain ⟨h1, h2⟩ := hd
  have hylt : p.2.toNat < w.occ.length := by
    rw [h1]; exact toNat_lt_of_InB_right w p hp
  constructor
  · simp [setOcc, h1]
  · intro row hrow
    simp only [setOcc] at hrow
    rcases List.mem_or_eq_of_mem_set hrow with h | h
    · exact h2 row h
    · subst h
      rw [List.length_set]
      apply h2
      rw [List.getD_eq_getElem?_getD, List.getElem?_eq_getElem hylt]
      exact List.getElem_mem hylt

theorem getD_set_self {α : Type} (l : List α) (i : Nat) (x d : α) (h : i < l.length) :
    (l.set i x).getD i d = x := by
  rw [List.getD_eq_getElem?_getD, List.getElem?_set_self h, Option.getD_some]

theorem getD_set_ne' {α : Type} (l : List α) (i j : Nat) (x : α) (d : α) (h : i ≠ j) :
    (l.set i x).getD j d = l.getD j d := by
  rw [List.getD_eq_getElem?_getD, List.getElem?_set_ne h, ← List.getD_eq_getElem?_getD]

theorem occGet_setOcc_self (w : World) (p : Pos) (v : Option Nat)
    (hd : WFdims w) (hp : InB w p) :
    occGet (setOcc w p v) p = v := by
  obtain ⟨h1, h2⟩ := hd
  have hylt : p.2.toNat < w.occ.length := by
    rw [h1]; exact toNat_lt_of_InB_right w p hp
  have hrowmem : w.occ.getD p.2.toNat [] ∈ w.occ := by
    rw [List.getD_eq_getElem?_getD, List.getElem?_eq_getElem hylt]
    exact List.getElem_mem hylt
  have hxlt : p.1.toNat < (w.occ.getD p.2.toNat []).length := by
    rw [h2 _ hrowmem]; exact toNat_lt_of_InB_left w p hp
  rw [occGet, if_pos (show InB (setOcc w p v) p from hp)]
  show ((w.occ.set p.2.toNat _).getD p.2.toNat []).getD p.1.toNat none = v
  rw [getD_set_self _ _ _ _ hylt, getD_set_self _ _ _ _ hxlt]

theorem occGet_setOcc_ne (w : World) (p q : Pos) (v : Option Nat)
    (hd : WFdims w) (hp : InB w p) (hq : q ≠ p) :
    occGet (setOcc w p v) q = occGet w q := by
  by_cases hqb : InB w q
  · rw [occGet, if_pos (show InB (setOcc w p v) q from hqb), occGet, if_pos hqb]
    by_cases hrow : q.2.toNat = p.2.toNat
    · have h22 : q.2 = p.2 := by
        obtain ⟨_, _, _, _⟩ := hp; obtain ⟨_, _, _, _⟩ := hqb; omega
      have h1n : q.1.toNat ≠ p.1.toNat := by
        have h11 : q.1 ≠ p.1 := fun h => hq (Prod.ext h h22)
        obtain ⟨_, _, _, _⟩ := hp; obtain ⟨_, _, _, _⟩ := hqb; omega
      obtain ⟨hl1, hl2⟩ := hd
      have hylt : p.2.toNat < w.occ.length := by
        rw [hl1]; exact toNat_lt_of_InB_right w p hp
      show ((w.occ.set p.2.toNat _).getD q.2.toNat []).getD q.1.toNat none = _
      rw [hrow, getD_set_self _ _ _ _ hylt, getD_set_ne' _ _ _ _ _ (fun h => h1n h.symm)]
    · show ((w.occ.set p.2.toNat _).getD q.2.toNat []).getD q.1.toNat none = _
      rw [getD_set_ne' _ _ _ _ _ (fun h => hrow h.symm)]
  · rw [occGet_out _ _ hqb, occGet_out]
    exact hqb


/-! ### Consequences of the occupancy invariant -/

theorem OccInv.mem_len {w : World} (h : OccInv w) {a : Nat} (ha : a ∈ activeIds w) :
    a < w.agents.length := (h.1 a ha).1

theorem OccInv.occ_pos {w : World} (h : OccInv w) {a : Nat} (ha : a ∈ activeIds w) :
    occGet w (w.agent a).pos = some a := (h.1 a ha).2

theorem OccInv.of_occ_some {w : World} (h : OccInv w) {p : Pos} {a : Nat}
    (hs : occGet w p = some a) :
    a ∈ activeIds w ∧ (w.agent a).pos = p := by
  have hb : InB w p := InB_of_occGet_some w p a hs
  obtain ⟨h1, h2, h3, h4⟩ := hb
  have hpe : ((((p.1.toNat : Nat) : Int)), (((p.2.toNat : Nat) : Int))) = p := by
    rw [Prod.ext_iff]
    constructor <;> simp <;> omega
  have hmain := h.2 p.1.toNat (by omega) p.2.toNat (by omega) a
  rw [hpe] at hmain
  exact hmain (by rw [Option.mem_toList, Option.mem_def]; exact hs)

theorem OccInv.pos_inj {w : World} (h : OccInv w) {a b : Nat}
    (ha : a ∈ activeIds w) (hb : b ∈ activeIds w)
    (hp : (w.agent a).pos = (w.agent b).pos) : a = b := by
  have h1 := h.occ_pos ha
  have h2 := h.occ_pos hb
  rw [hp, h2] at h1
  exact (Option.some_inj.mp h1).symm

/-- The occupancy invariant only depends on the board, the active ids,
the store length and the agents' positions. -/
theorem OccInv_congr (w w' : World)
    (hocc : ∀ p, occGet w' p = occGet w p)
    (hact : activeIds w' = activeIds w)
    (hlen : w'.agents.length = w.agents.length)
    (hw : w'.width = w.width) (hh : w'.height = w.height)
    (hpos : ∀ k, (w'.agent k).pos = (w.agent k).pos)
    (h : OccInv w) : OccInv w' := by
  constructor
  · intro a ha
    rw [hact] at ha
    refine ⟨by rw [hlen]; exact h.mem_len ha, ?_⟩
    rw [hocc, hpos]
    exact h.occ_pos ha
  · intro x hx y hy a hmem
    rw [hact, hpos]
    rw [hw] at hx
    rw [hh] at hy
    rw [Option.mem_toList, Option.mem_def, hocc] at hmem
    exact h.2 x hx y hy a (by rw [Option.mem_toList, Option.mem_def]; exact hmem)

/-- Replacing an agent without changing its location preserves the
occupancy invariant. -/
theorem OccInv_setAgent_pos (w : World) (i : Nat) (A : Agent)
    (hA : A.pos = (w.agent i).pos) (h : OccInv w) : OccInv (w.setAgent i A) := by
  apply OccInv_congr _ _ (fun p => occGet_setAgent w i A p) (activeIds_setAgent w i A)
    (length_setAgent w i A) rfl rfl _ h
  intro k
  by_cases hlen : i < w.agents.length
  · by_cases hk : k = i
    · subst hk; rw [agent_setAgent_self w k A hlen, hA]
    · rw [agent_setAgent_ne w i k A (fun h => hk h.symm)]
  · rw [agent_setAgent_big w i k A (by omega)]

/-! ### Adjacency facts -/

theorem adjacentCells_InB (w : World) (p q : Pos)
    (h : q ∈ adjacentCells w.width w.height p) : InB w q := by
  rw [adjacentCells, List.mem_filterMap] at h
  obtain ⟨d, _, hd⟩ := h
  split at hd
  case isTrue hc =>
    cases hd
    exact hc
  case isFalse => cases hd

theorem mem_adjacentCells_iff (wd ht : Nat) (p q : Pos) :
    q ∈ adjacentCells wd ht p ↔
      (0 ≤ q.1 ∧ q.1 < (wd : Int) ∧ 0 ≤ q.2 ∧ q.2 < (ht : Int) ∧ cheb p q ≤ 1) := by
  rw [adjacentCells, List.mem_filterMap]
  constructor
  · rintro ⟨d, hd, hq⟩
    split at hq
    case isTrue hc =>
      cases hq
      have hd1 : -1 ≤ d.1 ∧ d.1 ≤ 1 ∧ -1 ≤ d.2 ∧ d.2 ≤ 1 := by
        fin_cases hd <;> simp
      refine ⟨hc.1, hc.2.1, hc.2.2.1, hc.2.2.2, ?_⟩
      simp only [cheb]
      omega
    case isFalse => cases hq
  · rintro ⟨h1, h2, h3, h4, h5⟩
    refine ⟨(q.2 - p.2, q.1 - p.1), ?_, ?_⟩
    · simp only [cheb] at h5
      have hd : (q.1 - p.1 = -1 ∨ q.1 - p.1 = 0 ∨ q.1 - p.1 = 1) ∧
          (q.2 - p.2 = -1 ∨ q.2 - p.2 = 0 ∨ q.2 - p.2 = 1) := by omega
      rw [deltas]
      obtain ⟨ha | ha | ha, hb | hb | hb⟩ := hd <;> rw [ha, hb] <;> simp
    · have he : ((p.1 + (q.1 - p.1), p.2 + (q.2 - p.2)) : Pos) = q := by
        rw [Prod.ext_iff]
        exact ⟨by ring, by ring⟩
      show (if 0 ≤ p.1 + (q.1 - p.1) ∧ p.1 + (q.1 - p.1) < (wd : Int) ∧
              0 ≤ p.2 + (q.2 - p.2) ∧ p.2 + (q.2 - p.2) < (ht : Int)
            then some ((p.1 + (q.1 - p.1), p.2 + (q.2 - p.2)) : Pos) else none) = some q
      rw [if_pos (by omega)]
      exact congrArg some he

theorem nodup_adjacentCells (wd ht : Nat) (p : Pos) : (adjacentCells wd ht p).Nodup := by
  apply List.Nodup.filterMap
  · intro d d' q hq hq'
    rw [Option.mem_def] at hq hq'
    split at hq
    case isTrue hc =>
      split at hq'
      case isTrue hc' =>
        have h1 := Option.some_inj.mp hq
        have h2 := Option.some_inj.mp hq'
        rw [← h2] at h1
        rw [Prod.ext_iff] at h1
        simp only at h1
        rw [Prod.ext_iff]
        omega
      case isFalse => cases hq'
    case isFalse => cases hq
  · rw [deltas]
    decide

theorem self_mem_adjacentCells (w : World) (p : Pos) (h : InB w p) :
    p ∈ adjacentCells w.width w.height p := by
  rw [mem_adjacentCells_iff]
  obtain ⟨h1, h2, h3, h4⟩ := h
  refine ⟨h1, h2, h3, h4, ?_⟩
  simp [cheb]

/-! ### Facts about the argmin fold -/

theorem foldl_min_mem (dest : Pos) (b : Pos) (l : List Pos) :
    l.foldl (fun b x => if dist2 x dest < dist2 b dest then x else b) b ∈ b :: l := by
  induction l generalizing b with
  | nil => simp
  | cons x xs ih =>
    simp only [List.foldl_cons]
    by_cases hx : dist2 x dest < dist2 b dest
    · rw [if_pos hx]
      have := ih x
      simp only [List.mem_cons] at this ⊢
      tauto
    · rw [if_neg hx]
      have := ih b
      simp only [List.mem_cons] at this ⊢
      tauto

theorem bestBy_mem (dest : Pos) (l : List Pos) (c : Pos) (h : bestBy dest l = some c) :
    c ∈ l := by
  cases l with
  | nil => cases h
  | cons x xs =>
    rw [bestBy] at h
    have hmem := foldl_min_mem dest x xs
    rw [Option.some_inj.mp h] at hmem
    exact hmem

theorem foldl_min_unique (dest S : Pos) (l : List Pos) (b : Pos)
    (hb : b = S ∨ dist2 S dest < dist2 b dest)
    (hall : ∀ p ∈ l, p = S ∨ dist2 S dest < dist2 p dest)
    (hin : S ∈ l ∨ b = S) :
    l.foldl (fun b x => if dist2 x dest < dist2 b dest then x else b) b = S := by
  induction l generalizing b with
  | nil =>
    rcases hin with h | h
    · cases h
    · exact h
  | cons x xs ih =>
    simp only [List.foldl_cons]
    have hx := hall x (List.mem_cons_self x xs)
    by_cases hxS : x = S
    · subst hxS
      rcases hb with rfl | hb
      · rw [if_neg (lt_irrefl _)]
        exact ih _ (Or.inl rfl) (fun p hp => hall p (List.mem_cons_of_mem _ hp)) (Or.inr rfl)
      · rw [if_pos hb]
        exact ih _ (Or.inl rfl) (fun p hp => hall p (List.mem_cons_of_mem _ hp)) (Or.inr rfl)
    · have hxw : dist2 S dest < dist2 x dest := hx.resolve_left hxS
      have hin' : S ∈ xs ∨ (if dist2 x dest < dist2 b dest then x else b) = S := by
        rcases hin with h | h
        · rw [List.mem_cons] at h
          rcases h with h | h
          · exact absurd h.symm hxS
          · exact Or.inl h
        · subst h
          rw [if_neg (by omega)]
          exact Or.inr rfl
      have hb' : (if dist2 x dest < dist2 b dest then x else b) = S ∨
          dist2 S dest < dist2 (if dist2 x dest < dist2 b dest then x else b) dest := by
        by_cases hc : dist2 x dest < dist2 b dest
        · rw [if_pos hc]; exact Or.inr hxw
        · rw [if_neg hc]; exact hb
      exact ih _ hb' (fun p hp => hall p (List.mem_cons_of_mem _ hp)) hin'

theorem bestBy_unique_min (dest : Pos) (l : List Pos) (S : Pos) (hS : S ∈ l)
    (hmin : ∀ p ∈ l, p ≠ S → dist2 S dest < dist2 p dest) :
    bestBy dest l = some S := by
  cases l with
  | nil => cases hS
  | cons x xs =>
    rw [bestBy, Option.some_inj]
    apply foldl_min_unique
    · by_cases hxS : x = S
      · exact Or.inl hxS
      · exact Or.inr (hmin x (List.mem_cons_self x xs) hxS)
    · intro p hp
      by_cases hpS : p = S
      · exact Or.inl hpS
      · exact Or.inr (hmin p (List.mem_cons_of_mem _ hp) hpS)
    · rw [List.mem_cons] at hS
      rcases hS with h | h
      · exact Or.inr h.symm
      · exact Or.inl h

/-! ### Invariant preservation: the occupancy transfer -/

/-- Moving agent `i` from its current cell to an unoccupied in-bounds
cell `c` (clear old cell, write new cell, update the agent record with
new position `c`) preserves the occupancy invariant.  This is the shared
shape of `TypeA.move`, `TypeC.move1`, `TypeC.move2` and the direct-move
branch of `TypeB.move`. -/
theorem OccInv_transfer (w : World) (hd : WFdims w) (h : OccInv w) (i : Nat)
    (hi : i ∈ activeIds w) (c : Pos) (hcb : InB w c) (hc : occGet w c = none)
    (A : Agent) (hA : A.pos = c) :
    OccInv ((setOcc (setOcc w (w.agent i).pos none) c (some i)).setAgent i A) := by
  have hstartocc : occGet w (w.agent i).pos = some i := h.occ_pos hi
  have hsb : InB w (w.agent i).pos := InB_of_occGet_some _ _ _ hstartocc
  have hilen : i < w.agents.length := h.mem_len hi
  have hcs : c ≠ (w.agent i).pos := by
    intro he; rw [he, hstartocc] at hc; cases hc
  have hd1 : WFdims (setOcc w (w.agent i).pos none) :=
    WFdims_setOcc w _ none hd hsb
  have hocc : ∀ p, occGet ((setOcc (setOcc w (w.agent i).pos none) c (some i)).setAgent i A) p
      = if p = c then some i else if p = (w.agent i).pos then none else occGet w p := by
    intro p
    rw [occGet_setAgent]
    by_cases hpc : p = c
    · subst hpc
      rw [if_pos rfl, occGet_setOcc_self _ _ _ hd1 hcb]
    · rw [if_neg hpc, occGet_setOcc_ne _ _ _ _ hd1 hcb hpc]
      by_cases hps : p = (w.agent i).pos
      · subst hps
        rw [if_pos rfl, occGet_setOcc_self _ _ _ hd hsb]
      · rw [if_neg hps, occGet_setOcc_ne _ _ _ _ hd hsb hps]
  have hag : ∀ k, ((setOcc (setOcc w (w.agent i).pos none) c (some i)).setAgent i A).agent k
      = if k = i then A else w.agent k := by
    intro k
    by_cases hk : k = i
    · subst hk
      rw [if_pos rfl]
      exact agent_setAgent_self _ _ _ hilen
    · rw [if_neg hk]
      exact agent_setAgent_ne _ _ _ _ (fun he => hk he.symm)
  constructor
  · intro a ha
    rw [show activeIds ((setOcc (setOcc w (w.agent i).pos none) c (some i)).setAgent i A)
        = activeIds w from rfl] at ha
    refine ⟨?_, ?_⟩
    · show a < ((setOcc (setOcc w (w.agent i).pos none) c (some i)).setAgent i A).agents.length
      rw [length_setAgent]
      exact h.mem_len ha
    · rw [hag, hocc]
      by_cases hai : a = i
      · subst hai
        rw [if_pos rfl, hA, if_pos rfl]
      · rw [if_neg hai]
        have hps : (w.agent a).pos ≠ (w.agent i).pos := by
          intro he
          exact hai (h.pos_inj ha hi he)
        have hpc : (w.agent a).pos ≠ c := by
          intro he
          have hx := h.occ_pos ha
          rw [he, hc] at hx
          cases hx
        rw [if_neg hpc, if_neg hps]
        exact h.occ_pos ha
  · intro x hx y hy a hmem
    rw [Option.mem_toList, Option.mem_def, hocc] at hmem
    rw [show activeIds ((setOcc (setOcc w (w.agent i).pos none) c (some i)).setAgent i A)
        = activeIds w from rfl, hag]
    by_cases h1 : (((x : Nat) : Int), ((y : Nat) : Int)) = c
    · rw [if_pos h1] at hmem
      have hai : a = i := (Option.some_inj.mp hmem).symm
      subst hai
      refine ⟨hi, ?_⟩
      rw [if_pos rfl, hA, h1]
    · rw [if_neg h1] at hmem
      by_cases h2 : (((x : Nat) : Int), ((y : Nat) : Int)) = (w.agent i).pos
      · rw [if_pos h2] at hmem; cases hmem
      · rw [if_neg h2] at hmem
        obtain ⟨hmem1, hmem2⟩ := h.of_occ_some hmem
        have hai : a ≠ i := by
          intro he; subst he
          exact h2 hmem2.symm
        rw [if_neg hai]
        exact ⟨hmem1, hmem2⟩

/-! ### Invariant preservation: the simple moves -/

theorem OccInv_TypeA_move (w : World) (hd : WFdims w) (h : OccInv w) (i : Nat)
    (hi : i ∈ activeIds w) : OccInv (TypeA.move w i) := by
  cases hm : (w.agent i).moved with
  | true =>
    simp only [TypeA.move, hm, if_true]
    exact h
  | false =>
    cases hb : bestBy (w.agent i).dest (TypeA.choices w i) with
    | none =>
      simp only [TypeA.move, hm, hb, Bool.false_eq_true, if_false]
      exact OccInv_setAgent_pos _ _ _ rfl h
    | some c =>
      simp only [TypeA.move, hm, hb, Bool.false_eq_true, if_false]
      have hcmem := bestBy_mem _ _ _ hb
      rw [TypeA.choices, List.mem_filter, decide_eq_true_iff] at hcmem
      exact OccInv_transfer w hd h i hi c
        (adjacentCells_InB w _ c hcmem.1) hcmem.2.1 _ rfl

theorem OccInv_TypeC_move1 (w : World) (hd : WFdims w) (h : OccInv w) (i : Nat)
    (hi : i ∈ activeIds w) (r : Nat) : OccInv (TypeC.move1 w i r) := by
  cases hch : TypeC.choices1 w i with
  | nil =>
    simp only [TypeC.move1, hch]
    exact OccInv_setAgent_pos _ _ _ rfl h
  | cons x xs =>
    simp only [TypeC.move1, hch]
    have hclen : r % (x :: xs).length < (x :: xs).length :=
      Nat.mod_lt _ (by simp)
    have hcmem : (x :: xs).getD (r % (x :: xs).length) (w.agent i).pos ∈ TypeC.choices1 w i := by
      rw [hch, List.getD_eq_getElem?_getD, List.getElem?_eq_getElem hclen]
      exact List.getElem_mem hclen
    rw [TypeC.choices1, List.mem_filter, decide_eq_true_iff] at hcmem
    refine OccInv_setAgent_pos _ _ _ rfl ?_
    exact OccInv_transfer w hd h i hi _
      (adjacentCells_InB w _ _ hcmem.1) hcmem.2 _ rfl

theorem OccInv_TypeC_move2 (w : World) (hd : WFdims w) (h : OccInv w) (i : Nat)
    (hi : i ∈ activeIds w) : OccInv (TypeC.move2 w i) :=
  OccInv_TypeA_move w hd h i hi

theorem OccInv_TypeC_move3 (w : World) (h : OccInv w) (i : Nat) :
    OccInv (TypeC.move3 w i) := by
  exact OccInv_setAgent_pos _ _ _ rfl h

/-! ### The swap responders: state effects -/

/-- Every `check_swap` responder either leaves the world unchanged or
only sets the responder's `moved` flag. -/
theorem dispatchSwap_snd (w : World) (j : Nat) (q : Pos) (coin : Bool) :
    (dispatchSwap w j q coin).2 = w ∨
    (dispatchSwap w j q coin).2 = w.setAgent j { w.agent j with moved := true } := by
  rw [dispatchSwap]
  cases hk : (w.agent j).kind
  · rw [TypeA.check_swap]
    by_cases hc : dist2 q (w.agent j).dest < dist2 (w.agent j).pos (w.agent j).dest ∧
      (w.agent j).moved = false
    · rw [if_pos hc]; exact Or.inr rfl
    · rw [if_neg hc]; exact Or.inl rfl
  · rw [TypeB.check_swap]
    by_cases hc : shortest_path (w.agent j).pos (w.agent j).dest = q ∧
      (w.agent j).moved = false
    · rw [if_pos hc]; exact Or.inr rfl
    · rw [if_neg hc]; exact Or.inl rfl
  · exact Or.inl rfl
  · rw [TypeD.check_swap, TypeB.check_swap]
    by_cases hc : shortest_path (w.agent j).pos (w.agent j).dest = q ∧
      (w.agent j).moved = false
    · rw [if_pos hc]; exact Or.inr rfl
    · rw [if_neg hc]; exact Or.inl rfl

theorem agent_setMoved (w : World) (j : Nat) (b : Bool) (k : Nat) :
    ((w.setAgent j { w.agent j with moved := b }).agent k).pos = (w.agent k).pos ∧
    ((w.setAgent j { w.agent j with moved := b }).agent k).kind = (w.agent k).kind ∧
    ((w.setAgent j { w.agent j with moved := b }).agent k).dest = (w.agent k).dest ∧
    ((w.setAgent j { w.agent j with moved := b }).agent k).moveCount = (w.agent k).moveCount := by
  by_cases hj : j < w.agents.length
  · by_cases hk : k = j
    · subst hk
      rw [agent_setAgent_self _ _ _ hj]
      exact ⟨rfl, rfl, rfl, rfl⟩
    · rw [agent_setAgent_ne _ _ _ _ (fun he => hk he.symm)]
      exact ⟨rfl, rfl, rfl, rfl⟩
  · rw [agent_setAgent_big _ _ _ _ (by omega)]
    exact ⟨rfl, rfl, rfl, rfl⟩

theorem dispatchSwap_occ (w : World) (j : Nat) (q : Pos) (coin : Bool) (p : Pos) :
    occGet (dispatchSwap w j q coin).2 p = occGet w p := by
  rcases dispatchSwap_snd w j q coin with he | he <;> rw [he]
  rfl

theorem dispatchSwap_pos (w : World) (j : Nat) (q : Pos) (coin : Bool) (k : Nat) :
    ((dispatchSwap w j q coin).2.agent k).pos = (w.agent k).pos := by
  rcases dispatchSwap_snd w j q coin with he | he <;> rw [he]
  exact (agent_setMoved w j true k).1

theorem dispatchSwap_kind (w : World) (j : Nat) (q : Pos) (coin : Bool) (k : Nat) :
    ((dispatchSwap w j q coin).2.agent k).kind = (w.agent k).kind := by
  rcases dispatchSwap_snd w j q coin with he | he <;> rw [he]
  exact (agent_setMoved w j true k).2.1

theorem dispatchSwap_len (w : World) (j : Nat) (q : Pos) (coin : Bool) :
    (dispatchSwap w j q coin).2.agents.length = w.agents.length := by
  rcases dispatchSwap_snd w j q coin with he | he <;> rw [he]
  exact length_setAgent w j _

theorem dispatchSwap_activeIds (w : World) (j : Nat) (q : Pos) (coin : Bool) :
    activeIds (dispatchSwap w j q coin).2 = activeIds w := by
  rcases dispatchSwap_snd w j q coin with he | he <;> rw [he]
  rfl

theorem dispatchSwap_OccInv (w : World) (j : Nat) (q : Pos) (coin : Bool)
    (h : OccInv w) : OccInv (dispatchSwap w j q coin).2 := by
  rcases dispatchSwap_snd w j q coin with he | he <;> rw [he]
  · exact h
  · exact OccInv_setAgent_pos _ _ _ rfl h

theorem dispatchSwap_WFdims (w : World) (j : Nat) (q : Pos) (coin : Bool)
    (hd : WFdims w) : WFdims (dispatchSwap w j q coin).2 := by
  rcases dispatchSwap_snd w j q coin with he | he <;> rw [he]
  · exact hd
  · exact hd

/-! ### Invariant preservation: the two-party swap -/

/-- The atomic cell exchange of an accepted swap preserves the
occupancy invariant, including the degenerate self-swap (`i = j`) that
arises when the initiator's preferred cell is its own occupied cell. -/
theorem OccInv_swapStep (u : World) (hd : WFdims u) (h : OccInv u) (i j : Nat) (s best : Pos)
    (hs : occGet u s = some i) (hb : occGet u best = some j) :
    OccInv (setOcc ((setOcc (u.setAgent i { u.agent i with pos := best }) best
      (some i)).setAgent j
      { (setOcc (u.setAgent i { u.agent i with pos := best }) best (some i)).agent j with
        pos := s }) s (some j)) := by
  obtain ⟨hiact, hpi⟩ := h.of_occ_some hs
  obtain ⟨hjact, hpj⟩ := h.of_occ_some hb
  have hilen : i < u.agents.length := h.mem_len hiact
  have hjlen : j < u.agents.length := h.mem_len hjact
  have hsB : InB u s := InB_of_occGet_some _ _ _ hs
  have hbB : InB u best := InB_of_occGet_some _ _ _ hb
  have hd2 : WFdims (u.setAgent i { u.agent i with pos := best }) := hd
  have hd3 : WFdims (setOcc (u.setAgent i { u.agent i with pos := best }) best (some i)) :=
    WFdims_setOcc _ _ _ hd2 hbB
  by_cases hij : i = j
  · subst hij
    have hsb : s = best := by rw [← hpi, ← hpj]
    subst hsb
    have hd4 : WFdims ((setOcc (u.setAgent i { u.agent i with pos := s }) s
        (some i)).setAgent i
        { (setOcc (u.setAgent i { u.agent i with pos := s }) s (some i)).agent i with
          pos := s }) := hd3
    refine OccInv_congr u _ ?_ ?_ ?_ ?_ ?_ ?_ h
    · intro p
      by_cases hp : p = s
      · subst hp
        rw [occGet_setOcc_self _ _ _ hd4 hsB, hs]
      · rw [occGet_setOcc_ne _ _ _ _ hd4 hsB hp, occGet_setAgent,
          occGet_setOcc_ne _ _ _ _ hd2 hsB hp, occGet_setAgent]
    · rfl
    · show ((setOcc (u.setAgent i { u.agent i with pos := s }) s (some i)).setAgent i
        { (setOcc (u.setAgent i { u.agent i with pos := s }) s (some i)).agent i with
          pos := s }).agents.length = u.agents.length
      rw [length_setAgent]
      show (u.setAgent i { u.agent i with pos := s }).agents.length = u.agents.length
      rw [length_setAgent]
    · rfl
    · rfl
    · intro k
      show (((setOcc (u.setAgent i { u.agent i with pos := s }) s (some i)).setAgent i
        { (setOcc (u.setAgent i { u.agent i with pos := s }) s (some i)).agent i with
          pos := s }).agent k).pos = (u.agent k).pos
      by_cases hk : k = i
      · rw [hk]
        rw [agent_setAgent_self _ _ _ (by
          show i < (u.setAgent i { u.agent i with pos := s }).agents.length
          rw [length_setAgent]; exact hilen)]
        exact hpi.symm
      · rw [agent_setAgent_ne _ _ _ _ (fun he => hk he.symm)]
        show ((u.setAgent i { u.agent i with pos := s }).agent k).pos = _
        rw [agent_setAgent_ne _ _ _ _ (fun he => hk he.symm)]
  · have hsbne : s ≠ best := by
      intro he
      rw [he, hb] at hs
      exact hij (Option.some_inj.mp hs).symm
    have hd4 : WFdims ((setOcc (u.setAgent i { u.agent i with pos := best }) best
        (some i)).setAgent j
        { (setOcc (u.setAgent i { u.agent i with pos := best }) best (some i)).agent j with
          pos := s }) := hd3
    have hjlen3 : j < (setOcc (u.setAgent i { u.agent i with pos := best }) best
        (some i)).agents.length := by
      rw [show (setOcc (u.setAgent i { u.agent i with pos := best }) best
        (some i)).agents.length = u.agents.length from length_setAgent u i _]
      exact hjlen
    have hw3j : (setOcc (u.setAgent i { u.agent i with pos := best }) best
        (some i)).agent j = u.agent j := by
      show ((u.setAgent i { u.agent i with pos := best }).agent j) = u.agent j
      exact agent_setAgent_ne _ _ _ _ hij
    have hocc : ∀ p, occGet (setOcc ((setOcc (u.setAgent i { u.agent i with pos := best })
        best (some i)).setAgent j
        { (setOcc (u.setAgent i { u.agent i with pos := best }) best (some i)).agent j with
          pos := s }) s (some j)) p
        = if p = s then some j else if p = best then some i else occGet u p := by
      intro p
      by_cases hp : p = s
      · subst hp
        rw [if_pos rfl, occGet_setOcc_self _ _ _ hd4 hsB]
      · rw [if_neg hp, occGet_setOcc_ne _ _ _ _ hd4 hsB hp, occGet_setAgent]
        by_cases hpb : p = best
        · subst hpb
          rw [if_pos rfl, occGet_setOcc_self _ _ _ hd2 hbB]
        · rw [if_neg hpb, occGet_setOcc_ne _ _ _ _ hd2 hbB hpb, occGet_setAgent]
    have hag : ∀ k, ((setOcc ((setOcc (u.setAgent i { u.agent i with pos := best })
        best (some i)).setAgent j
        { (setOcc (u.setAgent i { u.agent i with pos := best }) best (some i)).agent j with
          pos := s }) s (some j)).agent k)
        = if k = i then { u.agent i with pos := best }
          else if k = j then { u.agent j with pos := s } else u.agent k := by
      intro k
      show (((setOcc (u.setAgent i { u.agent i with pos := best }) best
        (some i)).setAgent j
        { (setOcc (u.setAgent i { u.agent i with pos := best }) best (some i)).agent j with
          pos := s }).agent k) = _
      by_cases hk : k = j
      · subst hk
        rw [if_neg (fun he => hij he.symm), if_pos rfl,
          agent_setAgent_self _ _ _ hjlen3, hw3j]
      · rw [agent_setAgent_ne _ _ _ _ (fun he => hk he.symm)]
        show ((u.setAgent i { u.agent i with pos := best }).agent k) = _
        by_cases hki : k = i
        · subst hki
          rw [if_pos rfl]
          exact agent_setAgent_self _ _ _ hilen
        · rw [if_neg hki, if_neg hk]
          exact agent_setAgent_ne _ _ _ _ (fun he => hki he.symm)
    constructor
    · intro a ha
      have ha' : a ∈ activeIds u := ha
      refine ⟨?_, ?_⟩
      · show a < ((setOcc (u.setAgent i { u.agent i with pos := best }) best
          (some i)).setAgent j
          { (setOcc (u.setAgent i { u.agent i with pos := best }) best (some i)).agent j with
            pos := s }).agents.length
        rw [length_setAgent]
        show a < (u.setAgent i { u.agent i with pos := best }).agents.length
        rw [length_setAgent]
        exact h.mem_len ha'
      · rw [hag, hocc]
        by_cases hai : a = i
        · rw [hai, if_pos rfl]
          show (if best = s then some j else if best = best then some i else occGet u best)
            = some i
          rw [if_neg (fun he => hsbne he.symm), if_pos rfl]
        · rw [if_neg hai]
          by_cases haj : a = j
          · rw [haj, if_pos rfl]
            show (if s = s then some j else if s = best then some i else occGet u s) = some j
            rw [if_pos rfl]
          · rw [if_neg haj]
            have hps : (u.agent a).pos ≠ s := by
              rw [← hpi]
              intro he
              exact hai (h.pos_inj ha' hiact he)
            have hpb : (u.agent a).pos ≠ best := by
              rw [← hpj]
              intro he
              exact haj (h.pos_inj ha' hjact he)
            rw [if_neg hps, if_neg hpb]
            exact h.occ_pos ha'
    · intro x hx y hy a hmem
      rw [Option.mem_toList, Option.mem_def, hocc] at hmem
      rw [hag]
      by_cases h1 : (((x : Nat) : Int), ((y : Nat) : Int)) = s
      · rw [if_pos h1] at hmem
        have haj : a = j := (Option.some_inj.mp hmem).symm
        subst haj
        refine ⟨hjact, ?_⟩
        rw [if_neg (fun he => hij he.symm), if_pos rfl, h1]
      · rw [if_neg h1] at hmem
        by_cases h2 : (((x : Nat) : Int), ((y : Nat) : Int)) = best
        · rw [if_pos h2] at hmem
          have hai : a = i := (Option.some_inj.mp hmem).symm
          subst hai
          refine ⟨hiact, ?_⟩
          rw [if_pos rfl, h2]
        · rw [if_neg h2] at hmem
          obtain ⟨hmem1, hmem2⟩ := h.of_occ_some hmem
          have hai : a ≠ i := by
            intro he; subst he
            exact h1 (by rw [← hmem2, hpi])
          have haj : a ≠ j := by
            intro he; subst he
            exact h2 (by rw [← hmem2, hpj])
          rw [if_neg hai, if_neg haj]
          exact ⟨hmem1, hmem2⟩

/-! ### Invariant preservation: the TypeB act -/

theorem OccInv_TypeB_move (w : World) (hd : WFdims w) (h : OccInv w) (i : Nat)
    (hi : i ∈ activeIds w) (coin : Bool) (w' : World)
    (hw : TypeB.move w i coin = some w') : OccInv w' := by
  rw [TypeB.move] at hw
  cases hm : (w.agent i).moved with
  | true =>
    rw [hm] at hw
    simp only [if_true] at hw
    cases hw
    exact h
  | false =>
    rw [hm] at hw
    simp only [Bool.false_eq_true, if_false, TypeB.shortest_path_between, hm] at hw
    split at hw
    case h_1 => cases hw
    case h_2 best heqfind =>
      have hbadj : best ∈ adjacentCells w.width w.height (w.agent i).pos :=
        List.mem_of_find?_eq_some heqfind
      have hbB : InB w best := adjacentCells_InB w _ best hbadj
      split at hw
      case h_1 j heqocc =>
        split at hw
        case isTrue hacc =>
          cases hw
          refine OccInv_setAgent_pos _ _ _ rfl ?_
          have hocc1 : occGet (dispatchSwap w j (w.agent i).pos coin).2 (w.agent i).pos
              = some i := by
            rw [dispatchSwap_occ]
            exact h.occ_pos hi
          have hocc2 : occGet (dispatchSwap w j (w.agent i).pos coin).2 best = some j := by
            rw [dispatchSwap_occ]
            exact heqocc
          exact OccInv_swapStep (dispatchSwap w j (w.agent i).pos coin).2
            (dispatchSwap_WFdims w j _ coin hd) (dispatchSwap_OccInv w j _ coin h)
            i j (w.agent i).pos best hocc1 hocc2
        case isFalse hacc =>
          cases hw
          refine OccInv_setAgent_pos _ _ _ rfl ?_
          exact dispatchSwap_OccInv w j _ coin h
      case h_2 heqocc =>
        cases hw
        exact OccInv_transfer w hd h i hi best hbB heqocc _ rfl

/-! ### Facts about the cleanup scan -/

theorem scanRemove_perm (rem : Nat → Bool) : ∀ l : List Nat,
    ((scanRemove rem l).1 ++ (scanRemove rem l).2).Perm l
  | [] => by simp [scanRemove]
  | [a] => by
    by_cases hr : rem a <;> simp [scanRemove, hr]
  | a :: b :: rest => by
    have iht := scanRemove_perm rem rest
    have ihc := scanRemove_perm rem (b :: rest)
    by_cases hr : rem a
    · rw [scanRemove, if_pos hr]
      refine List.Perm.trans (List.Perm.cons b List.perm_middle) ?_
      refine List.Perm.trans (List.Perm.cons b (List.Perm.cons a iht)) ?_
      exact List.Perm.swap a b rest
    · rw [scanRemove, if_neg hr]
      exact List.Perm.cons a ihc

theorem scanRemove_sublist_k (rem : Nat → Bool) : ∀ l : List Nat,
    (scanRemove rem l).1.Sublist l
  | [] => by simp [scanRemove]
  | [a] => by
    by_cases hr : rem a <;> simp [scanRemove, hr]
  | a :: b :: rest => by
    by_cases hr : rem a
    · simp only [scanRemove, hr, if_true]
      exact List.Sublist.cons a (List.Sublist.cons₂ b (scanRemove_sublist_k rem rest))
    · simp only [scanRemove, hr, if_false]
      exact List.Sublist.cons₂ a (scanRemove_sublist_k rem (b :: rest))

theorem scanRemove_sublist_r (rem : Nat → Bool) : ∀ l : List Nat,
    (scanRemove rem l).2.Sublist l
  | [] => by simp [scanRemove]
  | [a] => by
    by_cases hr : rem a <;> simp [scanRemove, hr]
  | a :: b :: rest => by
    by_cases hr : rem a
    · simp only [scanRemove, hr, if_true]
      exact List.Sublist.cons₂ a (List.Sublist.cons b (scanRemove_sublist_r rem rest))
    · simp only [scanRemove, hr, if_false]
      exact List.Sublist.cons a (scanRemove_sublist_r rem (b :: rest))

/-- On a duplicate-free pool the scan partitions it: an id is kept iff
it is in the pool and was not removed. -/
theorem scanRemove_partition (rem : Nat → Bool) (l : List Nat) (hnd : l.Nodup) (a : Nat) :
    (a ∈ (scanRemove rem l).1 ↔ (a ∈ l ∧ a ∉ (scanRemove rem l).2)) ∧
    (a ∈ (scanRemove rem l).2 → a ∈ l) := by
  have hp := scanRemove_perm rem l
  have hnd2 : ((scanRemove rem l).1 ++ (scanRemove rem l).2).Nodup := hp.nodup_iff.mpr hnd
  rw [List.nodup_append] at hnd2
  refine ⟨⟨?_, ?_⟩, ?_⟩
  · intro hk
    exact ⟨hp.mem_iff.mp (List.mem_append.mpr (Or.inl hk)), fun hr => hnd2.2.2 hk hr⟩
  · rintro ⟨hl, hr⟩
    rcases List.mem_append.mp (hp.mem_iff.mpr hl) with hk | hrr
    · exact hk
    · exact absurd hrr hr
  · intro hr
    exact hp.mem_iff.mp (List.mem_append.mpr (Or.inr hr))

/-! ### Facts about clearing the removed agents' cells -/

theorem agents_clearOccs (w : World) (l : List Nat) : (clearOccs w l).agents = w.agents := by
  induction l generalizing w with
  | nil => rfl
  | cons a t ih => exact ih (setOcc w ((w.agent a).pos) none)

theorem agent_clearOccs (w : World) (l : List Nat) (k : Nat) :
    (clearOccs w l).agent k = w.agent k := by
  rw [World.agent, World.agent, agents_clearOccs]

theorem width_clearOccs (w : World) (l : List Nat) : (clearOccs w l).width = w.width := by
  induction l generalizing w with
  | nil => rfl
  | cons a t ih => exact ih (setOcc w ((w.agent a).pos) none)

theorem height_clearOccs (w : World) (l : List Nat) : (clearOccs w l).height = w.height := by
  induction l generalizing w with
  | nil => rfl
  | cons a t ih => exact ih (setOcc w ((w.agent a).pos) none)

theorem pools_clearOccs (w : World) (l : List Nat) :
    (clearOccs w l).activeA = w.activeA ∧ (clearOccs w l).activeB = w.activeB ∧
    (clearOccs w l).activeC = w.activeC ∧ (clearOccs w l).obstacles = w.obstacles := by
  induction l generalizing w with
  | nil => exact ⟨rfl, rfl, rfl, rfl⟩
  | cons a t ih => exact ih (setOcc w ((w.agent a).pos) none)

theorem WFdims_clearOccs (w : World) (l : List Nat) (hd : WFdims w)
    (hb : ∀ a ∈ l, InB w (w.agent a).pos) : WFdims (clearOccs w l) := by
  induction l generalizing w with
  | nil => exact hd
  | cons a t ih =>
    refine ih (setOcc w ((w.agent a).pos) none)
      (WFdims_setOcc _ _ _ hd (hb a (List.mem_cons_self a t))) ?_
    intro b hbt
    exact hb b (List.mem_cons_of_mem a hbt)

theorem occGet_clearOccs (w : World) (l : List Nat) (hd : WFdims w)
    (hb : ∀ a ∈ l, InB w (w.agent a).pos) (p : Pos) :
    occGet (clearOccs w l) p =
      if (∃ a ∈ l, (w.agent a).pos = p) then none else occGet w p := by
  induction l generalizing w with
  | nil => simp [clearOccs]
  | cons a t ih =>
    have hstep : clearOccs w (a :: t) = clearOccs (setOcc w ((w.agent a).pos) none) t := rfl
    rw [hstep]
    have haB : InB w (w.agent a).pos := hb a (List.mem_cons_self a t)
    have hdi : WFdims (setOcc w ((w.agent a).pos) none) := WFdims_setOcc _ _ _ hd haB
    have hbi : ∀ b ∈ t, InB (setOcc w ((w.agent a).pos) none)
        ((setOcc w ((w.agent a).pos) none).agent b).pos := by
      intro b hbt
      exact hb b (List.mem_cons_of_mem a hbt)
    rw [ih _ hdi hbi]
    by_cases h1 : ∃ b ∈ t, (w.agent b).pos = p
    · rw [if_pos ?side1, if_pos ?side2]
      case side1 =>
        obtain ⟨b, hbt, hbp⟩ := h1
        exact ⟨b, hbt, hbp⟩
      case side2 =>
        obtain ⟨b, hbt, hbp⟩ := h1
        exact ⟨b, List.mem_cons_of_mem a hbt, hbp⟩
    · rw [if_neg ?side3]
      case side3 =>
        intro hcon
        obtain ⟨b, hbt, hbp⟩ := hcon
        exact h1 ⟨b, hbt, hbp⟩
      by_cases h2 : (w.agent a).pos = p
      · rw [if_pos ⟨a, List.mem_cons_self a t, h2⟩, ← h2,
          occGet_setOcc_self _ _ _ hd haB]
      · rw [if_neg ?side4, occGet_setOcc_ne _ _ _ _ hd haB (fun he => h2 he.symm)]
        case side4 =>
          intro hcon
          obtain ⟨b, hbt, hbp⟩ := hcon
          rw [List.mem_cons] at hbt
          rcases hbt with rfl | hbt
          · exact h2 hbp
          · exact h1 ⟨b, hbt, hbp⟩

/-! ### Invariant preservation: cleanup -/

/-- Removing a duplicate-free set `R` of active agents (clearing their
cells and dropping them from the active ids) preserves the occupancy
invariant, whatever scan produced `R`. -/
theorem OccInv_removeScan (w w' : World) (R : List Nat)
    (hd : WFdims w) (h : OccInv w)
    (hRact : ∀ a ∈ R, a ∈ activeIds w)
    (hag : w'.agents = w.agents)
    (hocc : w'.occ = (clearOccs w R).occ)
    (hwd : w'.width = w.width) (hht : w'.height = w.height)
    (hact : ∀ a, a ∈ activeIds w' ↔ (a ∈ activeIds w ∧ a ∉ R)) :
    OccInv w' := by
  have hb : ∀ a ∈ R, InB w (w.agent a).pos :=
    fun a haR => InB_of_occGet_some _ _ _ (h.occ_pos (hRact a haR))
  have hagent : ∀ k, w'.agent k = w.agent k := by
    intro k
    rw [World.agent, World.agent, hag]
  have hC : ∀ p, occGet w' p =
      if (∃ a ∈ R, (w.agent a).pos = p) then none else occGet w p := by
    intro p
    have hIB : InB w' p ↔ InB (clearOccs w R) p := by
      rw [InB, InB, hwd, hht, width_clearOccs, height_clearOccs]
    have : occGet w' p = occGet (clearOccs w R) p := by
      rw [occGet, occGet]
      by_cases hp : InB w' p
      · rw [if_pos hp, if_pos (hIB.mp hp), hocc]
      · rw [if_neg hp, if_neg (fun hc => hp (hIB.mpr hc))]
    rw [this, occGet_clearOccs w R hd hb p]
  constructor
  · intro a ha
    obtain ⟨haw, haR⟩ := (hact a).mp ha
    refine ⟨?_, ?_⟩
    · rw [show w'.agents.length = w.agents.length from by rw [hag]]
      exact h.mem_len haw
    · rw [hagent, hC]
      rw [if_neg ?none1]
      case none1 =>
        rintro ⟨b, hbR, hbp⟩
        have hba : b = a := h.pos_inj (hRact b hbR) haw hbp
        exact haR (hba ▸ hbR)
      exact h.occ_pos haw
  · intro x hx y hy a hmem
    rw [Option.mem_toList, Option.mem_def, hC] at hmem
    by_cases hex : ∃ b ∈ R, (w.agent b).pos = (((x : Nat) : Int), ((y : Nat) : Int))
    · rw [if_pos hex] at hmem
      cases hmem
    · rw [if_neg hex] at hmem
      obtain ⟨haw, hap⟩ := h.of_occ_some hmem
      have haR : a ∉ R := fun hr => hex ⟨a, hr, hap⟩
      refine ⟨(hact a).mpr ⟨haw, haR⟩, ?_⟩
      rw [hagent]
      exact hap

/-- Decomposition of the no-duplicates hypothesis on the combined
active ids into per-pool facts. -/
theorem activeIds_disjoints (w : World) (hnd : (activeIds w).Nodup) :
    w.activeA.Nodup ∧ w.activeB.Nodup ∧ w.activeC.Nodup ∧
    (∀ x ∈ w.activeA, ¬(x ∈ w.activeB ∨ x ∈ w.activeC ∨ x ∈ w.obstacles)) ∧
    (∀ x ∈ w.activeB, ¬(x ∈ w.activeA ∨ x ∈ w.activeC ∨ x ∈ w.obstacles)) ∧
    (∀ x ∈ w.activeC, ¬(x ∈ w.activeA ∨ x ∈ w.activeB ∨ x ∈ w.obstacles)) := by
  rw [activeIds, List.nodup_append] at hnd
  obtain ⟨h1, h2, h12⟩ := hnd
  rw [List.nodup_append] at h1
  obtain ⟨h3, h4, h34⟩ := h1
  rw [List.nodup_append] at h3
  obtain ⟨h5, h6, h56⟩ := h3
  refine ⟨h5, h6, h4, ?_, ?_, ?_⟩
  · intro x hx
    rintro (hc | hc | hc)
    · exact h56 hx hc
    · exact h34 (List.mem_append.mpr (Or.inl hx)) hc
    · exact h12 (List.mem_append.mpr (Or.inl (List.mem_append.mpr (Or.inl hx)))) hc
  · intro x hx
    rintro (hc | hc | hc)
    · exact h56 hc hx
    · exact h34 (List.mem_append.mpr (Or.inr hx)) hc
    · exact h12 (List.mem_append.mpr (Or.inl (List.mem_append.mpr (Or.inr hx)))) hc
  · intro x hx
    rintro (hc | hc | hc)
    · exact h34 (List.mem_append.mpr (Or.inl hc)) hx
    · exact h34 (List.mem_append.mpr (Or.inr hc)) hx
    · exact h12 (List.mem_append.mpr (Or.inr hx)) hc

theorem cleanPoolA_facts (w : World) (hd : WFdims w) (h : OccInv w)
    (hnd : (activeIds w).Nodup) :
    OccInv (Grid.cleanPoolA w) ∧ WFdims (Grid.cleanPoolA w) ∧
    (activeIds (Grid.cleanPoolA w)).Nodup ∧ (Grid.cleanPoolA w).agents = w.agents := by
  obtain ⟨hndA, hndB, hndC, hdA, hdB, hdC⟩ := activeIds_disjoints w hnd
  have hpart := fun a => scanRemove_partition (atDest w) w.activeA hndA a
  have hRact : ∀ a ∈ (scanRemove (atDest w) w.activeA).2, a ∈ activeIds w := by
    intro a ha
    rw [activeIds]
    exact List.mem_append.mpr (Or.inl (List.mem_append.mpr (Or.inl
      (List.mem_append.mpr (Or.inl ((hpart a).2 ha))))))
  have hIdsEq : activeIds (Grid.cleanPoolA w)
      = (((scanRemove (atDest w) w.activeA).1 ++ w.activeB) ++ w.activeC) ++ w.obstacles := by
    show (((scanRemove (atDest w) w.activeA).1 ++
        (clearOccs w (scanRemove (atDest w) w.activeA).2).activeB) ++
        (clearOccs w (scanRemove (atDest w) w.activeA).2).activeC) ++
        (clearOccs w (scanRemove (atDest w) w.activeA).2).obstacles = _
    rw [(pools_clearOccs w _).2.1, (pools_clearOccs w _).2.2.1, (pools_clearOccs w _).2.2.2]
  have hagents : (Grid.cleanPoolA w).agents = w.agents := agents_clearOccs w _
  have hdims : WFdims (Grid.cleanPoolA w) :=
    WFdims_clearOccs w _ hd (fun a ha => InB_of_occGet_some _ _ _ (h.occ_pos (hRact a ha)))
  have hndNew : (activeIds (Grid.cleanPoolA w)).Nodup := by
    rw [hIdsEq]
    refine List.Sublist.nodup ?_ hnd
    rw [activeIds]
    exact (((scanRemove_sublist_k (atDest w) w.activeA).append_right
      w.activeB).append_right w.activeC).append_right w.obstacles
  refine ⟨?_, hdims, hndNew, hagents⟩
  refine OccInv_removeScan w _ (scanRemove (atDest w) w.activeA).2 hd h hRact hagents rfl
    (width_clearOccs w _) (height_clearOccs w _) ?_
  intro a
  rw [hIdsEq, activeIds]
  simp only [List.mem_append]
  constructor
  · rintro (((hk | hb) | hc) | ho)
    · exact ⟨Or.inl (Or.inl (Or.inl ((hpart a).1.mp hk).1)), ((hpart a).1.mp hk).2⟩
    · exact ⟨Or.inl (Or.inl (Or.inr hb)), fun hr => hdA a ((hpart a).2 hr) (Or.inl hb)⟩
    · exact ⟨Or.inl (Or.inr hc), fun hr => hdA a ((hpart a).2 hr) (Or.inr (Or.inl hc))⟩
    · exact ⟨Or.inr ho, fun hr => hdA a ((hpart a).2 hr) (Or.inr (Or.inr ho))⟩
  · rintro ⟨((hA | hb) | hc) | ho, hr⟩
    · exact Or.inl (Or.inl (Or.inl ((hpart a).1.mpr ⟨hA, hr⟩)))
    · exact Or.inl (Or.inl (Or.inr hb))
    · exact Or.inl (Or.inr hc)
    · exact Or.inr ho

theorem cleanPoolB_facts (w : World) (hd : WFdims w) (h : OccInv w)
    (hnd : (activeIds w).Nodup) :
    OccInv (Grid.cleanPoolB w) ∧ WFdims (Grid.cleanPoolB w) ∧
    (activeIds (Grid.cleanPoolB w)).Nodup ∧ (Grid.cleanPoolB w).agents = w.agents := by
  obtain ⟨hndA, hndB, hndC, hdA, hdB, hdC⟩ := activeIds_disjoints w hnd
  have hpart := fun a => scanRemove_partition (atDest w) w.activeB hndB a
  have hRact : ∀ a ∈ (scanRemove (atDest w) w.activeB).2, a ∈ activeIds w := by
    intro a ha
    rw [activeIds]
    exact List.mem_append.mpr (Or.inl (List.mem_append.mpr (Or.inl
      (List.mem_append.mpr (Or.inr ((hpart a).2 ha))))))
  have hIdsEq : activeIds (Grid.cleanPoolB w)
      = ((w.activeA ++ (scanRemove (atDest w) w.activeB).1) ++ w.activeC) ++ w.obstacles := by
    show (((clearOccs w (scanRemove (atDest w) w.activeB).2).activeA ++
        (scanRemove (atDest w) w.activeB).1) ++
        (clearOccs w (scanRemove (atDest w) w.activeB).2).activeC) ++
        (clearOccs w (scanRemove (atDest w) w.activeB).2).obstacles = _
    rw [(pools_clearOccs w _).1, (pools_clearOccs w _).2.2.1, (pools_clearOccs w _).2.2.2]
  have hagents : (Grid.cleanPoolB w).agents = w.agents := agents_clearOccs w _
  have hdims : WFdims (Grid.cleanPoolB w) :=
    WFdims_clearOccs w _ hd (fun a ha => InB_of_occGet_some _ _ _ (h.occ_pos (hRact a ha)))
  have hndNew : (activeIds (Grid.cleanPoolB w)).Nodup := by
    rw [hIdsEq]
    refine List.Sublist.nodup ?_ hnd
    rw [activeIds]
    exact ((((scanRemove_sublist_k (atDest w) w.activeB).append_left
      w.activeA).append_right w.activeC).append_right w.obstacles)
  refine ⟨?_, hdims, hndNew, hagents⟩
  refine OccInv_removeScan w _ (scanRemove (atDest w) w.activeB).2 hd h hRact hagents rfl
    (width_clearOccs w _) (height_clearOccs w _) ?_
  intro a
  rw [hIdsEq, activeIds]
  simp only [List.mem_append]
  constructor
  · rintro (((hA | hk) | hc) | ho)
    · exact ⟨Or.inl (Or.inl (Or.inl hA)), fun hr => hdB a ((hpart a).2 hr) (Or.inl hA)⟩
    · exact ⟨Or.inl (Or.inl (Or.inr ((hpart a).1.mp hk).1)), ((hpart a).1.mp hk).2⟩
    · exact ⟨Or.inl (Or.inr hc), fun hr => hdB a ((hpart a).2 hr) (Or.inr (Or.inl hc))⟩
    · exact ⟨Or.inr ho, fun hr => hdB a ((hpart a).2 hr) (Or.inr (Or.inr ho))⟩
  · rintro ⟨((hA | hb) | hc) | ho, hr⟩
    · exact Or.inl (Or.inl (Or.inl hA))
    · exact Or.inl (Or.inl (Or.inr ((hpart a).1.mpr ⟨hb, hr⟩)))
    · exact Or.inl (Or.inr hc)
    · exact Or.inr ho

theorem cleanPoolC_facts (w : World) (hd : WFdims w) (h : OccInv w)
    (hnd : (activeIds w).Nodup) :
    OccInv (Grid.cleanPoolC w) ∧ WFdims (Grid.cleanPoolC w) ∧
    (activeIds (Grid.cleanPoolC w)).Nodup ∧ (Grid.cleanPoolC w).agents = w.agents := by
  obtain ⟨hndA, hndB, hndC, hdA, hdB, hdC⟩ := activeIds_disjoints w hnd
  have hpart := fun a => scanRemove_partition (tcDone w) w.activeC hndC a
  have hRact : ∀ a ∈ (scanRemove (tcDone w) w.activeC).2, a ∈ activeIds w := by
    intro a ha
    rw [activeIds]
    exact List.mem_append.mpr (Or.inl (List.mem_append.mpr (Or.inr ((hpart a).2 ha))))
  have hIdsEq : activeIds (Grid.cleanPoolC w)
      = ((w.activeA ++ w.activeB) ++ (scanRemove (tcDone w) w.activeC).1) ++ w.obstacles := by
    show (((clearOccs w (scanRemove (tcDone w) w.activeC).2).activeA ++
        (clearOccs w (scanRemove (tcDone w) w.activeC).2).activeB) ++
        (scanRemove (tcDone w) w.activeC).1) ++
        (clearOccs w (scanRemove (tcDone w) w.activeC).2).obstacles = _
    rw [(pools_clearOccs w _).1, (pools_clearOccs w _).2.1, (pools_clearOccs w _).2.2.2]
  have hagents : (Grid.cleanPoolC w).agents = w.agents := agents_clearOccs w _
  have hdims : WFdims (Grid.cleanPoolC w) :=
    WFdims_clearOccs w _ hd (fun a ha => InB_of_occGet_some _ _ _ (h.occ_pos (hRact a ha)))
  have hndNew : (activeIds (Grid.cleanPoolC w)).Nodup := by
    rw [hIdsEq]
    refine List.Sublist.nodup ?_ hnd
    rw [activeIds]
    exact (((scanRemove_sublist_k (tcDone w) w.activeC).append_left
      (w.activeA ++ w.activeB)).append_right w.obstacles)
  refine ⟨?_, hdims, hndNew, hagents⟩
  refine OccInv_removeScan w _ (scanRemove (tcDone w) w.activeC).2 hd h hRact hagents rfl
    (width_clearOccs w _) (height_clearOccs w _) ?_
  intro a
  rw [hIdsEq, activeIds]
  simp only [List.mem_append]
  constructor
  · rintro (((hA | hb) | hk) | ho)
    · exact ⟨Or.inl (Or.inl (Or.inl hA)), fun hr => hdC a ((hpart a).2 hr) (Or.inl hA)⟩
    · exact ⟨Or.inl (Or.inl (Or.inr hb)), fun hr => hdC a ((hpart a).2 hr) (Or.inr (Or.inl hb))⟩
    · exact ⟨Or.inl (Or.inr ((hpart a).1.mp hk).1), ((hpart a).1.mp hk).2⟩
    · exact ⟨Or.inr ho, fun hr => hdC a ((hpart a).2 hr) (Or.inr (Or.inr ho))⟩
  · rintro ⟨((hA | hb) | hc) | ho, hr⟩
    · exact Or.inl (Or.inl (Or.inl hA))
    · exact Or.inl (Or.inl (Or.inr hb))
    · exact Or.inl (Or.inr ((hpart a).1.mpr ⟨hc, hr⟩))
    · exact Or.inr ho

theorem clean_up_facts (w : World) (hd : WFdims w) (h : OccInv w)
    (hnd : (activeIds w).Nodup) :
    OccInv (Grid.clean_up w) ∧ WFdims (Grid.clean_up w) ∧
    (activeIds (Grid.clean_up w)).Nodup ∧ (Grid.clean_up w).agents = w.agents := by
  obtain ⟨hA1, hA2, hA3, hA4⟩ := cleanPoolA_facts w hd h hnd
  obtain ⟨hB1, hB2, hB3, hB4⟩ := cleanPoolB_facts _ hA2 hA1 hA3
  obtain ⟨hC1, hC2, hC3, hC4⟩ := cleanPoolC_facts _ hB2 hB1 hB3
  exact ⟨hC1, hC2, hC3, (hC4.trans hB4).trans hA4⟩

/-! ### Frame lemmas: what each operation leaves unchanged -/

theorem agents_length_setOcc (w : World) (p : Pos) (v : Option Nat) :
    (setOcc w p v).agents.length = w.agents.length := rfl

theorem agent_default_of_big (w : World) (i : Nat) (h : w.agents.length ≤ i) :
    w.agent i = default := by
  rw [World.agent, List.getD_eq_getElem?_getD, List.getElem?_eq_none h]
  rfl

theorem TypeA_move_agent_other (u : World) (i j : Nat) (hij : i ≠ j) :
    (TypeA.move u i).agent j = u.agent j := by
  rw [TypeA.move]
  split
  · rfl
  · split
    · exact agent_setAgent_ne _ _ _ _ hij
    · exact agent_setAgent_ne _ _ _ _ hij

theorem TypeA_move_pools (u : World) (i : Nat) :
    (TypeA.move u i).activeA = u.activeA ∧ (TypeA.move u i).activeB = u.activeB ∧
    (TypeA.move u i).activeC = u.activeC ∧ (TypeA.move u i).obstacles = u.obstacles ∧
    (TypeA.move u i).agents.length = u.agents.length := by
  rw [TypeA.move]
  split
  · exact ⟨rfl, rfl, rfl, rfl, rfl⟩
  · split
    · exact ⟨rfl, rfl, rfl, rfl, length_setAgent _ _ _⟩
    · exact ⟨rfl, rfl, rfl, rfl, length_setAgent _ _ _⟩

theorem TypeA_move_sets_moved (u : World) (i : Nat) (hi : i < u.agents.length) :
    ((TypeA.move u i).agent i).moved = true := by
  rw [TypeA.move]
  cases hm : (u.agent i).moved
  case true =>
    rw [if_pos rfl]
    exact hm
  case false =>
    rw [if_neg Bool.false_ne_true]
    split
    case h_1 c hc =>
      rw [agent_setAgent_self _ _ _ (show i < (setOcc (setOcc u (u.agent i).pos none) c
        (some i)).agents.length from hi)]
    case h_2 hc =>
      rw [agent_setAgent_self _ _ _ hi]

theorem TypeA_move_moved_monotone (u : World) (i k : Nat)
    (h : (u.agent k).moved = true) : ((TypeA.move u i).agent k).moved = true := by
  by_cases hik : i = k
  · rw [← hik] at h ⊢
    by_cases hil : i < u.agents.length
    · exact TypeA_move_sets_moved u i hil
    · rw [TypeA.move]
      split
      · exact h
      · exact absurd h (by assumption)
  · rw [TypeA_move_agent_other u i k hik]
    exact h

theorem foldl_TypeA_move_length (l : List Nat) (u : World) :
    ((l.foldl TypeA.move u).agents.length) = u.agents.length := by
  induction l generalizing u with
  | nil => rfl
  | cons x xs ih => rw [List.foldl_cons, ih, (TypeA_move_pools u x).2.2.2.2]

theorem foldl_TypeA_move_moved (l : List Nat) (u : World)
    (hl : ∀ i ∈ l, i < u.agents.length) :
    (∀ j ∈ l, ((l.foldl TypeA.move u).agent j).moved = true) ∧
    (∀ j, (u.agent j).moved = true → ((l.foldl TypeA.move u).agent j).moved = true) := by
  induction l generalizing u with
  | nil => exact ⟨fun j hj => absurd hj (List.not_mem_nil j), fun j hj => hj⟩
  | cons x xs ih =>
    have hl' : ∀ i ∈ xs, i < (TypeA.move u x).agents.length := by
      intro i hi
      rw [(TypeA_move_pools u x).2.2.2.2]
      exact hl i (List.mem_cons_of_mem x hi)
    obtain ⟨ih1, ih2⟩ := ih (TypeA.move u x) hl'
    constructor
    · intro j hj
      rw [List.mem_cons] at hj
      rcases hj with rfl | hj
      · rw [List.foldl_cons]
        exact ih2 j (TypeA_move_sets_moved u j (hl j (List.mem_cons_self j xs)))
      · rw [List.foldl_cons]
        exact ih1 j hj
    · intro j hj
      rw [List.foldl_cons]
      exact ih2 j (TypeA_move_moved_monotone u x j hj)

theorem pools_cleanPoolA (u : World) :
    (Grid.cleanPoolA u).activeB = u.activeB ∧ (Grid.cleanPoolA u).activeC = u.activeC ∧
    (Grid.cleanPoolA u).obstacles = u.obstacles ∧
    (Grid.cleanPoolA u).activeA = (scanRemove (atDest u) u.activeA).1 := by
  refine ⟨?_, ?_, ?_, rfl⟩
  · exact (pools_clearOccs u _).2.1
  · exact (pools_clearOccs u _).2.2.1
  · exact (pools_clearOccs u _).2.2.2

theorem pools_cleanPoolB (u : World) :
    (Grid.cleanPoolB u).activeA = u.activeA ∧ (Grid.cleanPoolB u).activeC = u.activeC ∧
    (Grid.cleanPoolB u).obstacles = u.obstacles ∧
    (Grid.cleanPoolB u).activeB = (scanRemove (atDest u) u.activeB).1 := by
  refine ⟨?_, ?_, ?_, rfl⟩
  · exact (pools_clearOccs u _).1
  · exact (pools_clearOccs u _).2.2.1
  · exact (pools_clearOccs u _).2.2.2

theorem pools_cleanPoolC (u : World) :
    (Grid.cleanPoolC u).activeA = u.activeA ∧ (Grid.cleanPoolC u).activeB = u.activeB ∧
    (Grid.cleanPoolC u).obstacles = u.obstacles ∧
    (Grid.cleanPoolC u).activeC = (scanRemove (tcDone u) u.activeC).1 := by
  refine ⟨?_, ?_, ?_, rfl⟩
  · exact (pools_clearOccs u _).1
  · exact (pools_clearOccs u _).2.1
  · exact (pools_clearOccs u _).2.2.2

theorem agents_clean_up (u : World) : (Grid.clean_up u).agents = u.agents := by
  rw [Grid.clean_up]
  rw [show (Grid.cleanPoolC (Grid.cleanPoolB (Grid.cleanPoolA u))).agents
      = (Grid.cleanPoolB (Grid.cleanPoolA u)).agents from agents_clearOccs _ _]
  rw [show (Grid.cleanPoolB (Grid.cleanPoolA u)).agents
      = (Grid.cleanPoolA u).agents from agents_clearOccs _ _]
  exact agents_clearOccs _ _

theorem agent_clean_up (u : World) (k : Nat) :
    (Grid.clean_up u).agent k = u.agent k := by
  rw [World.agent, World.agent, agents_clean_up]

theorem clean_up_activeA_sub (u : World) :
    ∀ a ∈ (Grid.clean_up u).activeA, a ∈ u.activeA := by
  intro a ha
  rw [Grid.clean_up, (pools_cleanPoolC _).1, (pools_cleanPoolB _).1,
    (pools_cleanPoolA _).2.2.2] at ha
  exact (scanRemove_sublist_k _ _).subset ha

theorem clean_up_activeB_sub (u : World) :
    ∀ a ∈ (Grid.clean_up u).activeB, a ∈ u.activeB := by
  intro a ha
  rw [Grid.clean_up, (pools_cleanPoolC _).2.1, (pools_cleanPoolB _).2.2.2] at ha
  have := (scanRemove_sublist_k _ _).subset ha
  rw [(pools_cleanPoolA _).1] at this
  exact this

theorem dispatchSwap_moved_monotone (w : World) (j : Nat) (q : Pos) (coin : Bool) (k : Nat)
    (h : (w.agent k).moved = true) :
    ((dispatchSwap w j q coin).2.agent k).moved = true := by
  rcases dispatchSwap_snd w j q coin with he | he <;> rw [he]
  · exact h
  · by_cases hjl : j < w.agents.length
    · by_cases hk : k = j
      · rw [hk, agent_setAgent_self _ _ _ hjl]
      · rw [agent_setAgent_ne _ _ _ _ (fun x => hk x.symm)]
        exact h
    · rw [agent_setAgent_big _ _ _ _ (by omega)]
      exact h

theorem TypeB_move_moved_monotone (u : World) (i : Nat) (coin : Bool) (u' : World)
    (hw : TypeB.move u i coin = some u') (k : Nat)
    (h : (u.agent k).moved = true) : (u'.agent k).moved = true := by
  rw [TypeB.move] at hw
  cases hm : (u.agent i).moved
  case true =>
    rw [hm, if_pos rfl] at hw
    cases hw
    exact h
  case false =>
    rw [hm] at hw
    simp only [Bool.false_eq_true, if_false, TypeB.shortest_path_between, hm] at hw
    split at hw
    case h_1 => cases hw
    case h_2 best heqfind =>
      split at hw
      case h_1 j heqocc =>
        split at hw
        case isTrue hacc =>
          cases hw
          by_cases hki : k = i
          · by_cases hil : i < u.agents.length
            · rw [hki, agent_setAgent_self _ _ _ (by
                rw [agents_length_setOcc, length_setAgent, agents_length_setOcc,
                  length_setAgent, dispatchSwap_len]
                exact hil)]
            · rw [hki] at h
              rw [agent_default_of_big u i (by omega)] at h
              cases h
          · rw [agent_setAgent_ne _ _ _ _ (fun x => hki x.symm), agent_setOcc]
            by_cases hkj : k = j
            · by_cases hjl : j < u.agents.length
              · rw [hkj, agent_setAgent_self _ _ _ (by
                  rw [agents_length_setOcc, length_setAgent, dispatchSwap_len]
                  exact hjl)]
                dsimp only
                rw [agent_setOcc, agent_setAgent_ne _ _ _ _
                  (fun x => hki (hkj.trans x.symm)), ← hkj]
                exact dispatchSwap_moved_monotone u k _ coin k h
              · rw [hkj] at h
                rw [agent_default_of_big u j (by omega)] at h
                cases h
            · rw [agent_setAgent_ne _ _ _ _ (fun x => hkj x.symm), agent_setOcc,
                agent_setAgent_ne _ _ _ _ (fun x => hki x.symm)]
              exact dispatchSwap_moved_monotone u j _ coin k h
        case isFalse hacc =>
          cases hw
          by_cases hki : k = i
          · by_cases hil : i < u.agents.length
            · rw [hki, agent_setAgent_self _ _ _ (by rw [dispatchSwap_len]; exact hil)]
            · rw [hki, agent_setAgent_big _ _ _ _ (by rw [dispatchSwap_len]; omega)]
              rw [hki] at h
              have hd : u.agent i = default := agent_default_of_big u i (by omega)
              rw [hd] at h
              cases h
          · rw [agent_setAgent_ne _ _ _ _ (fun x => hki x.symm)]
            exact dispatchSwap_moved_monotone u j _ coin k h
      case h_2 heqocc =>
        cases hw
        by_cases hki : k = i
        · by_cases hil : i < u.agents.length
          · rw [hki, agent_setAgent_self _ _ _ (by
              rw [agents_length_setOcc, agents_length_setOcc]
              exact hil)]
          · rw [hki, agent_setAgent_big _ _ _ _ (by
              rw [agents_length_setOcc, agents_length_setOcc]
              omega)]
            rw [hki] at h
            have hd : u.agent i = default := agent_default_of_big u i (by omega)
            rw [hd] at h
            cases h
        · rw [agent_setAgent_ne _ _ _ _ (fun x => hki x.symm)]
          exact h

theorem foldl_TypeA_move_activeA (l : List Nat) (u : World) :
    (l.foldl TypeA.move u).activeA = u.activeA := by
  induction l generalizing u with
  | nil => rfl
  | cons x xs ih => rw [List.foldl_cons, ih, (TypeA_move_pools u x).1]

/-! ### Claim C1 -/

/-- C1: starting from any state satisfying the occupancy invariant
(every cell holds at most one occupant — enforced by the single
occupant reference per cell — and every active or obstacle agent's
current cell records that agent as its occupant), the invariant is
preserved by every operation of a turn: a Mover act (`TypeA.move`), a
PathFollower act (`TypeB.move`, covering the direct move and the
accepted swap), a Tourist act in any mode (`TypeC.move1`, `TypeC.move2`,
`TypeC.move3`), and cleanup (`Grid.clean_up`). -/
theorem occupancy_invariant_preserved (w : World)
    (hd : WFdims w) (hnd : (activeIds w).Nodup) (h : OccInv w) :
    (∀ i ∈ activeIds w, OccInv (TypeA.move w i)) ∧
    (∀ i ∈ activeIds w, ∀ coin : Bool, ∀ w' : World,
      TypeB.move w i coin = some w' → OccInv w') ∧
    (∀ i ∈ activeIds w, ∀ r : Nat, OccInv (TypeC.move1 w i r)) ∧
    (∀ i ∈ activeIds w, OccInv (TypeC.move2 w i)) ∧
    (∀ i : Nat, OccInv (TypeC.move3 w i)) ∧
    OccInv (Grid.clean_up w) :=
  ⟨fun i hi => OccInv_TypeA_move w hd h i hi,
   fun i hi coin w' hw => OccInv_TypeB_move w hd h i hi coin w' hw,
   fun i hi r => OccInv_TypeC_move1 w hd h i hi r,
   fun i hi => OccInv_TypeC_move2 w hd h i hi,
   fun i => OccInv_TypeC_move3 w h i,
   (clean_up_facts w hd h hnd).1⟩

theorem occupancy_invariant_preserved_witness :
    WFdims Wmix ∧ (activeIds Wmix).Nodup ∧ OccInv Wmix ∧
    OccInv (TypeA.move Wmix 0) ∧ OccInv (Grid.clean_up Wmix) :=
  ⟨by decide, by decide, by decide,
   (occupancy_invariant_preserved Wmix (by decide) (by decide) (by decide)).1 0 (by decide),
   (occupancy_invariant_preserved Wmix (by decide) (by decide) (by decide)).2.2.2.2.2⟩

/-! ### Claim C2 -/

/-- C2: cleanup is not idempotent.  In `W2` both movers stand on their
destinations, yet the first `Grid.clean_up` removes only agent 0 — the
scan's `list.remove` shifts agent 1 into the examined slot and the
iterator steps past it — and the second call removes agent 1, changing
the active/finished partition again. -/
theorem cleanup_not_idempotent :
    (W2.agent 0).pos = (W2.agent 0).dest ∧ (W2.agent 1).pos = (W2.agent 1).dest ∧
    (Grid.clean_up W2).activeA = [1] ∧ (Grid.clean_up W2).finishedA = [0] ∧
    (Grid.clean_up (Grid.clean_up W2)).activeA = [] ∧
    (Grid.clean_up (Grid.clean_up W2)).finishedA = [0, 1] := by decide

/-! ### Claim C3 -/

/-- C3: a Mover with no strictly-improving free neighbor does not stay
put.  In `W3` the mover at (1,0) aims for (0,0), every unoccupied
neighbor (only (2,0)) strictly increases the Euclidean distance, and
`TypeA.move` nevertheless moves the agent to (2,0). -/
theorem mover_moves_despite_no_gain :
    (∀ p ∈ TypeA.choices W3 1,
      ¬ dist2 p (W3.agent 1).dest < dist2 (W3.agent 1).pos (W3.agent 1).dest) ∧
    (W3.agent 1).pos = (1, 0) ∧ (W3.agent 1).moved = false ∧
    ((TypeA.move W3 1).agent 1).pos = (2, 0) := by decide

/-! ### Claim C6 -/

/-- C6: after the Mover phase of a turn (all of the shuffled pool acts,
then the first cleanup runs), every still-active Mover carries
`moved = true`; an already-moved Mover declines every swap request; and
a PathFollower act never clears any agent's `moved` flag — so every
PathFollower swap request directed at a Mover later in the turn is
declined. -/
theorem movers_act_before_pathfollowers (w : World) (piA piB : List Nat)
    (hpi : ∀ i ∈ piA, i < w.agents.length) :
    (∀ j ∈ (moverPhaseState w piA piB).activeA,
      ((moverPhaseState w piA piB).agent j).moved = true) ∧
    (∀ (u : World) (j : Nat) (q : Pos) (coin : Bool),
      (u.agent j).kind = Kind.A → (u.agent j).moved = true →
      dispatchSwap u j q coin = (false, u)) ∧
    (∀ (u : World) (i : Nat) (coin : Bool) (u' : World),
      TypeB.move u i coin = some u' →
      ∀ k : Nat, (u.agent k).moved = true → (u'.agent k).moved = true) := by
  refine ⟨?_, ?_, ?_⟩
  · intro j hj
    rw [moverPhaseState] at hj ⊢
    rw [agent_clean_up]
    have hjA := clean_up_activeA_sub _ j hj
    have hXA : ({ piA.foldl TypeA.move { w with activeA := piA } with
        activeB := piB }).activeA = piA := by
      show (piA.foldl TypeA.move { w with activeA := piA }).activeA = piA
      rw [foldl_TypeA_move_activeA]
    rw [hXA] at hjA
    show ((piA.foldl TypeA.move { w with activeA := piA }).agent j).moved = true
    exact (foldl_TypeA_move_moved piA { w with activeA := piA } hpi).1 j hjA
  · intro u j q coin hk hmv
    simp only [dispatchSwap, hk, TypeA.check_swap]
    rw [if_neg (by rintro ⟨-, hmf⟩; rw [hmv] at hmf; cases hmf)]
  · exact fun u i coin u' hw k hk => TypeB_move_moved_monotone u i coin u' hw k hk

theorem movers_act_before_pathfollowers_witness :
    (∀ i ∈ ([0] : List Nat), i < Wmix.agents.length) ∧
    0 ∈ (moverPhaseState Wmix [0] [1]).activeA ∧
    ((moverPhaseState Wmix [0] [1]).agent 0).moved = true :=
  ⟨by decide, by decide,
   (movers_act_before_pathfollowers Wmix [0] [1] (by decide)).1 0 (by decide)⟩

/-! ### Claim C4 -/

/-- C4 counterexample: a Tourist that accepts a swap is not marked as
acted.  `TypeC.check_swap` returns the bare coin flip and leaves the
state — in particular the tourist's `moved` flag — untouched. -/
theorem tourist_accepts_without_acting :
    (WC.agent 0).kind = Kind.C ∧ (WC.agent 0).moved = false ∧
    dispatchSwap WC 0 (1, 0) true = (true, WC) ∧
    ((dispatchSwap WC 0 (1, 0) true).2.agent 0).moved = false := by decide

/-- C4 (amended): when a Mover, PathFollower or Obstacle accepts a swap
request, the acceptance also marks it as acted for the remainder of the
turn; the Tourist's `check_swap` instead accepts or declines by an
unconditional coin flip and leaves its acted state unchanged. -/
theorem swap_accept_marks_acted_except_tourist (w : World) (j : Nat) (q : Pos) (coin : Bool)
    (hj : j < w.agents.length) :
    (((w.agent j).kind = Kind.A ∨ (w.agent j).kind = Kind.B ∨ (w.agent j).kind = Kind.D) →
      (dispatchSwap w j q coin).1 = true →
      ((dispatchSwap w j q coin).2.agent j).moved = true) ∧
    ((w.agent j).kind = Kind.C → dispatchSwap w j q coin = (coin, w)) := by
  constructor
  · intro hk hacc
    rcases hk with hk | hk | hk
    · simp only [dispatchSwap, hk, TypeA.check_swap] at hacc ⊢
      by_cases hc : dist2 q (w.agent j).dest < dist2 (w.agent j).pos (w.agent j).dest ∧
          (w.agent j).moved = false
      · rw [if_pos hc]
        dsimp only
        rw [agent_setAgent_self _ _ _ hj]
      · rw [if_neg hc] at hacc
        cases hacc
    · simp only [dispatchSwap, hk, TypeB.check_swap] at hacc ⊢
      by_cases hc : shortest_path (w.agent j).pos (w.agent j).dest = q ∧
          (w.agent j).moved = false
      · rw [if_pos hc]
        dsimp only
        rw [agent_setAgent_self _ _ _ hj]
      · rw [if_neg hc] at hacc
        cases hacc
    · simp only [dispatchSwap, hk, TypeD.check_swap, TypeB.check_swap] at hacc ⊢
      by_cases hc : shortest_path (w.agent j).pos (w.agent j).dest = q ∧
          (w.agent j).moved = false
      · rw [if_pos hc]
        dsimp only
        rw [agent_setAgent_self _ _ _ hj]
      · rw [if_neg hc] at hacc
        cases hacc
  · intro hk
    simp only [dispatchSwap, hk, TypeC.check_swap]

theorem swap_accept_marks_acted_except_tourist_witness :
    0 < Wmix.agents.length ∧
    (dispatchSwap Wmix 0 (1, 1) false).1 = true ∧
    ((dispatchSwap Wmix 0 (1, 1) false).2.agent 0).moved = true :=
  ⟨by decide, by decide,
   (swap_accept_marks_acted_except_tourist Wmix 0 (1, 1) false (by decide)).1
     (Or.inl (by decide)) (by decide)⟩

/-! ### Claim C5 -/

theorem natAbs_mul_self_le (x y : Int) (h : x.natAbs ≤ y.natAbs) : x * x ≤ y * y := by
  rw [← Int.natAbs_mul_self, ← Int.natAbs_mul_self]
  exact_mod_cast Nat.mul_le_mul h h

theorem natAbs_mul_self_lt (x y : Int) (h : x.natAbs < y.natAbs) : x * x < y * y := by
  rw [← Int.natAbs_mul_self, ← Int.natAbs_mul_self]
  exact_mod_cast Nat.mul_lt_mul_of_lt_of_le h (Nat.le_of_lt h) (by omega)

/-- Per-axis optimality of the sign snap: among the offsets -1, 0, 1,
the sign of `v` is the unique minimiser of `(v - offset)^2`. -/
theorem sgn_axis_min (v e : Int) (he1 : -1 ≤ e) (he2 : e ≤ 1) :
    (v - sgn v) * (v - sgn v) ≤ (v - e) * (v - e) ∧
    (e ≠ sgn v → (v - sgn v) * (v - sgn v) < (v - e) * (v - e)) := by
  constructor
  · apply natAbs_mul_self_le
    unfold sgn
    split_ifs <;> omega
  · intro hne
    apply natAbs_mul_self_lt
    unfold sgn at hne ⊢
    split_ifs at hne ⊢ <;> omega

theorem sgn_eq_zero_iff (z : Int) : sgn z = 0 ↔ z = 0 := by
  unfold sgn
  split_ifs with h1 h2
  · constructor
    · intro h
      omega
    · intro h
      omega
  · constructor
    · intro h
      exact absurd h (by decide)
    · intro h
      omega
  · constructor
    · intro h
      omega
    · intro h
      omega

theorem sgn_bounds (z : Int) : -1 ≤ sgn z ∧ sgn z ≤ 1 := by
  unfold sgn
  split_ifs <;> omega

theorem sgn_step_bound (a b lo hi : Int) (ha1 : lo ≤ a) (ha2 : a < hi)
    (hb1 : lo ≤ b) (hb2 : b < hi) :
    lo ≤ a + sgn (b - a) ∧ a + sgn (b - a) < hi := by
  unfold sgn
  split_ifs <;> omega

/-- For any cell `q` within Chebyshev distance 1 of `p` other than the
snapped cell, the snapped cell is strictly closer to the destination. -/
theorem snap_strict_min (p d q : Pos) (hq1 : cheb p q ≤ 1)
    (hqS : q ≠ shortest_path p d) (hpd : p ≠ d) :
    dist2 (shortest_path p d) d < dist2 q d := by
  rw [shortest_path, if_neg hpd] at hqS ⊢
  rw [dist2, dist2]
  have hc1 : (q.1 - p.1).natAbs ≤ 1 := by
    rw [cheb] at hq1
    omega
  have hc2 : (q.2 - p.2).natAbs ≤ 1 := by
    rw [cheb] at hq1
    omega
  have he1a : -1 ≤ q.1 - p.1 := by omega
  have he1b : q.1 - p.1 ≤ 1 := by omega
  have he2a : -1 ≤ q.2 - p.2 := by omega
  have he2b : q.2 - p.2 ≤ 1 := by omega
  have hax1 := sgn_axis_min (d.1 - p.1) (q.1 - p.1) he1a he1b
  have hax2 := sgn_axis_min (d.2 - p.2) (q.2 - p.2) he2a he2b
  have hr1 : d.1 - (p.1 + sgn (d.1 - p.1)) = (d.1 - p.1) - sgn (d.1 - p.1) := by ring
  have hr2 : d.2 - (p.2 + sgn (d.2 - p.2)) = (d.2 - p.2) - sgn (d.2 - p.2) := by ring
  have hr3 : d.1 - q.1 = (d.1 - p.1) - (q.1 - p.1) := by ring
  have hr4 : d.2 - q.2 = (d.2 - p.2) - (q.2 - p.2) := by ring
  show (d.1 - (p.1 + sgn (d.1 - p.1))) * (d.1 - (p.1 + sgn (d.1 - p.1))) +
      (d.2 - (p.2 + sgn (d.2 - p.2))) * (d.2 - (p.2 + sgn (d.2 - p.2))) <
      (d.1 - q.1) * (d.1 - q.1) + (d.2 - q.2) * (d.2 - q.2)
  rw [hr1, hr2, hr3, hr4]
  have hdiff : q.1 - p.1 ≠ sgn (d.1 - p.1) ∨ q.2 - p.2 ≠ sgn (d.2 - p.2) := by
    by_contra hcon
    push_neg at hcon
    apply hqS
    rw [Prod.ext_iff]
    constructor
    · show q.1 = p.1 + sgn (d.1 - p.1)
      omega
    · show q.2 = p.2 + sgn (d.2 - p.2)
      omega
  rcases hdiff with hdf | hdf
  · exact add_lt_add_of_lt_of_le (hax1.2 hdf) hax2.1
  · exact add_lt_add_of_le_of_lt hax1.1 (hax2.2 hdf)

/-- The snapped cell is a member of the preferred-cell candidate list
whenever the agent is not at its destination and both cells are on the
grid. -/
theorem snap_mem_choicesB (w : World) (i : Nat)
    (hne : (w.agent i).pos ≠ (w.agent i).dest)
    (hpB : InB w (w.agent i).pos) (hdB : InB w (w.agent i).dest) :
    shortest_path (w.agent i).pos (w.agent i).dest ∈ TypeB.choicesB w i := by
  obtain ⟨hp1, hp2, hp3, hp4⟩ := hpB
  obtain ⟨hd1, hd2, hd3, hd4⟩ := hdB
  have hb1 := sgn_step_bound (w.agent i).pos.1 (w.agent i).dest.1 0 w.width hp1 hp2 hd1 hd2
  have hb2 := sgn_step_bound (w.agent i).pos.2 (w.agent i).dest.2 0 w.height hp3 hp4 hd3 hd4
  have hSne : shortest_path (w.agent i).pos (w.agent i).dest ≠ (w.agent i).pos := by
    rw [shortest_path, if_neg hne]
    intro hcon
    rw [Prod.ext_iff] at hcon
    obtain ⟨hx, hy⟩ := hcon
    have e1 : sgn ((w.agent i).dest.1 - (w.agent i).pos.1) = 0 := by
      have := hx
      simp only at this
      omega
    have e2 : sgn ((w.agent i).dest.2 - (w.agent i).pos.2) = 0 := by
      have := hy
      simp only at this
      omega
    rw [sgn_eq_zero_iff] at e1 e2
    exact hne (Prod.ext (by omega) (by omega)).symm
  rw [TypeB.choicesB, List.mem_filter]
  refine ⟨?_, by rw [decide_eq_true_iff]; exact hSne⟩
  rw [mem_adjacentCells_iff, shortest_path, if_neg hne]
  have hs1 := sgn_bounds ((w.agent i).dest.1 - (w.agent i).pos.1)
  have hs2 := sgn_bounds ((w.agent i).dest.2 - (w.agent i).pos.2)
  refine ⟨hb1.1, hb1.2, hb2.1, hb2.2, ?_⟩
  rw [cheb]
  simp only
  omega

/-- C5 core: under the not-yet-acted precondition, away from the
destination, `TypeB.shortest_path_between`'s argmin over the adjacent
cells equals the sign-snapped cell of `shortest_path`. -/
theorem spb_eq_snap (w : World) (i : Nat)
    (hm : (w.agent i).moved = false)
    (hne : (w.agent i).pos ≠ (w.agent i).dest)
    (hpB : InB w (w.agent i).pos) (hdB : InB w (w.agent i).dest) :
    TypeB.shortest_path_between w i
      = some (shortest_path (w.agent i).pos (w.agent i).dest) := by
  have hmem := snap_mem_choicesB w i hne hpB hdB
  have hmin : ∀ q ∈ TypeB.choicesB w i,
      q ≠ shortest_path (w.agent i).pos (w.agent i).dest →
      dist2 (shortest_path (w.agent i).pos (w.agent i).dest) (w.agent i).dest
        < dist2 q (w.agent i).dest := by
    intro q hq hqS
    rw [TypeB.choicesB, List.mem_filter] at hq
    rw [mem_adjacentCells_iff] at hq
    exact snap_strict_min (w.agent i).pos (w.agent i).dest q hq.1.2.2.2.2 hqS hne
  have hbest := bestBy_unique_min (w.agent i).dest (TypeB.choicesB w i) _ hmem hmin
  rw [TypeB.shortest_path_between]
  rw [hm]
  simp only [Bool.false_eq_true, if_false, hbest, Option.getD_some]

/-- C5: for a PathFollower that has not yet acted and whose current
cell differs from its destination (both on the grid), the preferred
target cell computed by `TypeB.shortest_path_between` — the
Euclidean-distance-minimising adjacent cell — coincides with the
Chebyshev-direction snapped cell computed by `shortest_path`; and when
a cell coincides with the destination, `shortest_path` returns the cell
itself. -/
theorem pathfollower_preferred_cell_eq_snap (w : World) (i : Nat)
    (hm : (w.agent i).moved = false)
    (hne : (w.agent i).pos ≠ (w.agent i).dest)
    (hpB : InB w (w.agent i).pos) (hdB : InB w (w.agent i).dest) :
    TypeB.shortest_path_between w i
      = some (shortest_path (w.agent i).pos (w.agent i).dest) ∧
    (∀ q : Pos, shortest_path q q = q) :=
  ⟨spb_eq_snap w i hm hne hpB hdB, fun q => by rw [shortest_path, if_pos rfl]⟩

theorem pathfollower_preferred_cell_eq_snap_witness :
    (Wmix.agent 1).moved = false ∧ (Wmix.agent 1).pos ≠ (Wmix.agent 1).dest ∧
    InB Wmix (Wmix.agent 1).pos ∧ InB Wmix (Wmix.agent 1).dest ∧
    TypeB.shortest_path_between Wmix 1
      = some (shortest_path (Wmix.agent 1).pos (Wmix.agent 1).dest) :=
  ⟨by decide, by decide, by decide, by decide,
   (pathfollower_preferred_cell_eq_snap Wmix 1 (by decide) (by decide) (by decide)
     (by decide)).1⟩

/-! ### Claim C7 -/

/-- C7 counterexample: the precomputed neighbor list contains the cell
itself, which is at Chebyshev distance 0, not 1 — `Grid.initialize`
never excludes the `(0, 0)` offset. -/
theorem adjacency_contains_self :
    (1, 1) ∈ adjacentCells 3 3 (1, 1) ∧ cheb (1, 1) (1, 1) ≠ 1 := by decide

/-- C7 (amended): after grid construction, for every cell the
precomputed neighbor list contains exactly the cells at Chebyshev
distance at most 1 whose coordinates lie inside the grid bounds — the
up-to-8 Moore neighbors plus the cell itself, with no wraparound — each
appearing once. -/
theorem adjacency_characterization (wd ht : Nat) (p : Pos) :
    (adjacentCells wd ht p).Nodup ∧
    (∀ q : Pos, q ∈ adjacentCells wd ht p ↔
      (0 ≤ q.1 ∧ q.1 < (wd : Int) ∧ 0 ≤ q.2 ∧ q.2 < (ht : Int) ∧ cheb p q ≤ 1)) :=
  ⟨nodup_adjacentCells wd ht p, fun q => mem_adjacentCells_iff wd ht p q⟩

/-! ### Claim C8 -/

/-- C8: the counter semantics are as claimed — `TypeC.move1`
(random walk) and `TypeC.move3` (idle) increment the lifetime counter,
`TypeC.move2` (greedy) never does — but the removal timing is not: in
`W8` both tourists have counter 41 > 40, yet the first `Grid.clean_up`
migrates only tourist 0; tourist 1 is shifted into the scanned slot,
skipped, and stays active past the first cleanup after its counter
exceeded the cap. -/
theorem tourist_counter_cleanup_deferred :
    (W8.agent 0).moveCount = 41 ∧ (W8.agent 1).moveCount = 41 ∧
    ((TypeC.move3 WC 0).agent 0).moveCount = 1 ∧
    ((TypeC.move1 WC 0 0).agent 0).moveCount = 1 ∧
    ((TypeC.move2 WC 0).agent 0).moveCount = 0 ∧
    (Grid.clean_up W8).activeC = [1] ∧ (Grid.clean_up W8).finishedC = [0] := by decide

/-! ### Claim C9: frame lemmas for a full turn -/

theorem TypeC_move1_agent_other (u : World) (i r j : Nat) (hij : i ≠ j) :
    (TypeC.move1 u i r).agent j = u.agent j := by
  cases hch : TypeC.choices1 u i with
  | nil =>
    simp only [TypeC.move1, hch]
    rw [agent_setAgent_ne _ _ _ _ hij]
  | cons x xs =>
    simp only [TypeC.move1, hch]
    rw [agent_setAgent_ne _ _ _ _ hij, agent_setAgent_ne _ _ _ _ hij,
      agent_setOcc, agent_setOcc]

theorem TypeC_move3_agent_other (u : World) (i j : Nat) (hij : i ≠ j) :
    (TypeC.move3 u i).agent j = u.agent j := by
  rw [TypeC.move3]
  exact agent_setAgent_ne _ _ _ _ hij

theorem TypeC_phaseMove_agent_other (u : World) (i : Nat) (P : TurnParams) (j : Nat)
    (hij : i ≠ j) : (TypeC.phaseMove u i P).agent j = u.agent j := by
  rw [TypeC.phaseMove]
  split_ifs
  · exact TypeA_move_agent_other u i j hij
  · exact TypeC_move3_agent_other u i j hij
  · exact TypeC_move1_agent_other u i (P.rand i) j hij
  · rfl

theorem foldl_TypeA_move_agent_other (l : List Nat) (u : World) (j : Nat) (hj : j ∉ l) :
    (l.foldl TypeA.move u).agent j = u.agent j := by
  induction l generalizing u with
  | nil => rfl
  | cons x xs ih =>
    rw [List.foldl_cons, ih _ (fun hh => hj (List.mem_cons_of_mem x hh)),
      TypeA_move_agent_other u x j (fun he => hj (he ▸ List.mem_cons_self x xs))]

theorem foldl_phaseMove_agent_other (l : List Nat) (u : World) (P : TurnParams) (j : Nat)
    (hj : j ∉ l) :
    (l.foldl (fun v i => TypeC.phaseMove v i P) u).agent j = u.agent j := by
  induction l generalizing u with
  | nil => rfl
  | cons x xs ih =>
    rw [List.foldl_cons, ih _ (fun hh => hj (List.mem_cons_of_mem x hh)),
      TypeC_phaseMove_agent_other u x P j (fun he => hj (he ▸ List.mem_cons_self x xs))]

/-- A PathFollower act never changes the cell or the class of a distinct
obstacle agent: the accepted-swap branch is explicitly guarded by the
partner's class not being `D`. -/
theorem TypeB_move_other_pos_kind (u : World) (i : Nat) (coin : Bool) (u' : World)
    (hw : TypeB.move u i coin = some u') (j : Nat) (hij : i ≠ j)
    (hkD : (u.agent j).kind = Kind.D) :
    (u'.agent j).pos = (u.agent j).pos ∧ (u'.agent j).kind = Kind.D := by
  rw [TypeB.move] at hw
  cases hm : (u.agent i).moved
  case true =>
    rw [hm, if_pos rfl] at hw
    cases hw
    exact ⟨rfl, hkD⟩
  case false =>
    rw [hm] at hw
    simp only [Bool.false_eq_true, if_false, TypeB.shortest_path_between, hm] at hw
    split at hw
    case h_1 => cases hw
    case h_2 best heqfind =>
      split at hw
      case h_1 j' heqocc =>
        split at hw
        case isTrue hacc =>
          cases hw
          have hj'j : j' ≠ j := by
            intro he
            rw [he] at hacc
            exact hacc.2 (by rw [dispatchSwap_kind]; exact hkD)
          rw [agent_setAgent_ne _ _ _ _ hij, agent_setOcc,
            agent_setAgent_ne _ _ _ _ hj'j, agent_setOcc,
            agent_setAgent_ne _ _ _ _ hij]
          exact ⟨dispatchSwap_pos u j' _ coin j, by rw [dispatchSwap_kind]; exact hkD⟩
        case isFalse hacc =>
          cases hw
          rw [agent_setAgent_ne _ _ _ _ hij]
          exact ⟨dispatchSwap_pos u j' _ coin j, by rw [dispatchSwap_kind]; exact hkD⟩
      case h_2 heqocc =>
        cases hw
        rw [agent_setAgent_ne _ _ _ _ hij, agent_setOcc, agent_setOcc]
        exact ⟨rfl, hkD⟩

theorem foldlM_TypeB_pos_kind (l : List Nat) (u : World) (coins : Nat → Bool) (j : Nat)
    (hj : j ∉ l) (hkD : (u.agent j).kind = Kind.D) (u' : World)
    (hw : l.foldlM (fun v i => TypeB.move v i (coins i)) u = some u') :
    (u'.agent j).pos = (u.agent j).pos ∧ (u'.agent j).kind = Kind.D := by
  induction l generalizing u with
  | nil =>
    rw [List.foldlM_nil] at hw
    cases hw
    exact ⟨rfl, hkD⟩
  | cons x xs ih =>
    rw [List.foldlM_cons] at hw
    cases hstep : TypeB.move u x (coins x) with
    | none =>
      rw [hstep] at hw
      cases hw
    | some v =>
      rw [hstep] at hw
      have hw' : xs.foldlM (fun v i => TypeB.move v i (coins i)) v = some u' := hw
      have hx : x ≠ j := fun he => hj (he ▸ List.mem_cons_self x xs)
      obtain ⟨hp, hk⟩ := TypeB_move_other_pos_kind u x (coins x) v hstep j hx hkD
      obtain ⟨ihp, ihk⟩ := ih v (fun hh => hj (List.mem_cons_of_mem x hh)) hk hw'
      exact ⟨ihp.trans hp, ihk⟩

theorem resetPool_agent_pos_kind (u : World) (l : List Nat) (k : Nat) :
    ((resetPool u l).agent k).pos = (u.agent k).pos ∧
    ((resetPool u l).agent k).kind = (u.agent k).kind := by
  induction l generalizing u with
  | nil => exact ⟨rfl, rfl⟩
  | cons x xs ih =>
    have hstep := agent_setMoved u x false k
    obtain ⟨ih1, ih2⟩ := ih (u.setAgent x { u.agent x with moved := false })
    exact ⟨ih1.trans hstep.1, ih2.trans hstep.2.1⟩

/-- Across one full turn an obstacle that appears in none of the three
shuffled pool orders keeps its cell and its class. -/
theorem play_turn_obstacle_frame (w : World) (P : TurnParams) (j : Nat)
    (hkD : (w.agent j).kind = Kind.D)
    (hA : j ∉ P.piA) (hB : j ∉ P.piB) (hC : j ∉ P.piC) (w' : World)
    (hw : Grid.play_turn w P = some w') :
    (w'.agent j).pos = (w.agent j).pos ∧ (w'.agent j).kind = Kind.D := by
  rw [Grid.play_turn] at hw
  have h4 : (moverPhaseState w P.piA P.piB).agent j = w.agent j := by
    rw [moverPhaseState, agent_clean_up]
    show (P.piA.foldl TypeA.move { w with activeA := P.piA }).agent j = w.agent j
    rw [foldl_TypeA_move_agent_other _ _ j hA]
    rfl
  cases hB5 : (moverPhaseState w P.piA P.piB).activeB.foldlM
      (fun u i => TypeB.move u i (P.coins i)) (moverPhaseState w P.piA P.piB) with
  | none =>
    rw [hB5] at hw
    cases hw
  | some w5 =>
    rw [hB5] at hw
    cases hw
    have hBmem : j ∉ (moverPhaseState w P.piA P.piB).activeB := by
      intro hmem
      rw [moverPhaseState] at hmem
      exact hB (clean_up_activeB_sub _ j hmem)
    obtain ⟨hp5, hk5⟩ := foldlM_TypeB_pos_kind _ _ P.coins j hBmem
      (by rw [h4]; exact hkD) w5 hB5
    have h6p : ((Grid.clean_up w5).agent j) = w5.agent j := agent_clean_up w5 j
    have h8 : ((P.piC.foldl (fun v i => TypeC.phaseMove v i P)
        { Grid.clean_up w5 with activeC := P.piC }).agent j)
        = ({ Grid.clean_up w5 with activeC := P.piC } : World).agent j :=
      foldl_phaseMove_agent_other _ _ P j hC
    have h8' : (({ Grid.clean_up w5 with activeC := P.piC } : World).agent j)
        = (Grid.clean_up w5).agent j := rfl
    have h9 : ((Grid.clean_up (P.piC.foldl (fun v i => TypeC.phaseMove v i P)
        { Grid.clean_up w5 with activeC := P.piC })).agent j)
        = ((P.piC.foldl (fun v i => TypeC.phaseMove v i P)
        { Grid.clean_up w5 with activeC := P.piC }).agent j) :=
      agent_clean_up _ j
    set w9 := Grid.clean_up (P.piC.foldl (fun v i => TypeC.phaseMove v i P)
        { Grid.clean_up w5 with activeC := P.piC }) with hw9
    have hrA := resetPool_agent_pos_kind w9 w9.activeA j
    have hrB := resetPool_agent_pos_kind (resetPool w9 w9.activeA) w9.activeB j
    have hrC := resetPool_agent_pos_kind
      (resetPool (resetPool w9 w9.activeA) w9.activeB) w9.activeC j
    have hfin : ((resetPool (resetPool (resetPool w9 w9.activeA) w9.activeB)
        w9.activeC).agent j).pos = (w9.agent j).pos ∧
        ((resetPool (resetPool (resetPool w9 w9.activeA) w9.activeB)
        w9.activeC).agent j).kind = (w9.agent j).kind :=
      ⟨(hrC.1.trans hrB.1).trans hrA.1, (hrC.2.trans hrB.2).trans hrA.2⟩
    constructor
    · show ((resetPool (resetPool (resetPool w9 w9.activeA) w9.activeB)
        w9.activeC).agent j).pos = (w.agent j).pos
      rw [hfin.1, hw9, h9, h8, h8', h6p, hp5, h4]
    · show ((resetPool (resetPool (resetPool w9 w9.activeA) w9.activeB)
        w9.activeC).agent j).kind = Kind.D
      rw [hfin.2, hw9, h9, h8, h8', h6p, hk5]

theorem playTurns_obstacle_frame (ps : List TurnParams) (w : World) (j : Nat)
    (hkD : (w.agent j).kind = Kind.D)
    (hps : ∀ P ∈ ps, j ∉ P.piA ∧ j ∉ P.piB ∧ j ∉ P.piC) (w' : World)
    (hw : Grid.playTurns w ps = some w') :
    (w'.agent j).pos = (w.agent j).pos ∧ (w'.agent j).kind = Kind.D := by
  induction ps generalizing w with
  | nil =>
    rw [Grid.playTurns, List.foldlM_nil] at hw
    cases hw
    exact ⟨rfl, hkD⟩
  | cons P ps ih =>
    rw [Grid.playTurns, List.foldlM_cons] at hw
    cases hstep : Grid.play_turn w P with
    | none =>
      rw [hstep] at hw
      cases hw
    | some v =>
      rw [hstep] at hw
      have hw' : Grid.playTurns v ps = some w' := hw
      obtain ⟨hPA, hPB, hPC⟩ := hps P (List.mem_cons_self P ps)
      obtain ⟨hp1, hk1⟩ := play_turn_obstacle_frame w P j hkD hPA hPB hPC v hstep
      obtain ⟨hp2, hk2⟩ := ih v hk1 (fun Q hQ => hps Q (List.mem_cons_of_mem P hQ)) hw'
      exact ⟨hp2.trans hp1, hk2⟩

/-- C9: an Obstacle's cell never changes across any number of turns (it
belongs to no phase pool), and its swap response always declines: its
destination equals its cell, so its preferred `shortest_path` cell is its
own location, which never equals the requester's offered cell. -/
theorem obstacle_invariant (ps : List TurnParams) (w : World) (j : Nat)
    (hkD : (w.agent j).kind = Kind.D)
    (hps : ∀ P ∈ ps, j ∉ P.piA ∧ j ∉ P.piB ∧ j ∉ P.piC)
    (w' : World) (hw : Grid.playTurns w ps = some w') :
    ((w'.agent j).pos = (w.agent j).pos ∧ (w'.agent j).kind = Kind.D) ∧
    (∀ (u : World) (reqPos : Pos) (coin : Bool),
      (u.agent j).kind = Kind.D → (u.agent j).dest = (u.agent j).pos →
      reqPos ≠ (u.agent j).pos → dispatchSwap u j reqPos coin = (false, u)) := by
  refine ⟨playTurns_obstacle_frame ps w j hkD hps w' hw, ?_⟩
  intro u reqPos coin hk hd hne
  simp only [dispatchSwap, hk, TypeD.check_swap, TypeB.check_swap]
  rw [if_neg]
  rintro ⟨h1, -⟩
  rw [hd, shortest_path, if_pos rfl] at h1
  exact hne h1.symm

/-- The obstacle invariant at a concrete one-cell world over one turn. -/
theorem obstacle_invariant_witness :
    ∃ w', Grid.playTurns W9w [P0] = some w' ∧
      ((w'.agent 0).pos = (W9w.agent 0).pos ∧ (w'.agent 0).kind = Kind.D) ∧
      dispatchSwap W9w 0 (1, 0) false = (false, W9w) := by
  have hps : ∀ P ∈ [P0], (0 : Nat) ∉ P.piA ∧ (0 : Nat) ∉ P.piB ∧ (0 : Nat) ∉ P.piC := by
    intro P hP
    cases hP with
    | head => exact ⟨by decide, by decide, by decide⟩
    | tail _ h => cases h
  have h : Grid.playTurns W9w [P0] = some { W9w with turn := 1 } := by decide
  have hmain := obstacle_invariant [P0] W9w 0 (by decide) hps _ h
  exact ⟨_, h, hmain.1, hmain.2 W9w (1, 0) false (by decide) (by decide) (by decide)⟩

/-- C10: for a PathFollower standing on the grid, the coordinate pair
returned by `TypeB.shortest_path_between` always names a cell of the
agent's adjacency list (when no non-self neighbor exists it falls back
to the agent's own cell, which the self-inclusive adjacency list
contains), so the coordinate lookup never comes up empty; the
already-acted branch of `TypeB.shortest_path_between` — whose source
leaves its result variable unbound — yields no value, and `TypeB.move`
only calls it when the agent has not yet acted, so the whole act is
total: it never hits a crashing branch. -/
theorem pathfollower_act_total (w : World) (i : Nat) (coin : Bool)
    (hb : InB w (w.agent i).pos) :
    (∀ c, TypeB.shortest_path_between w i = some c →
        c ∈ adjacentCells w.width w.height (w.agent i).pos) ∧
    ((w.agent i).moved = true → TypeB.shortest_path_between w i = none) ∧
    (TypeB.move w i coin).isSome := by
  have hsub : ∀ c, TypeB.shortest_path_between w i = some c →
      c ∈ adjacentCells w.width w.height (w.agent i).pos := by
    intro c hc
    rw [TypeB.shortest_path_between] at hc
    split at hc
    case isTrue => cases hc
    case isFalse =>
      injection hc with hc
      cases hbb : bestBy (w.agent i).dest (TypeB.choicesB w i) with
      | none =>
        rw [hbb, Option.getD_none] at hc
        rw [← hc]
        exact self_mem_adjacentCells w _ hb
      | some b =>
        rw [hbb, Option.getD_some] at hc
        rw [← hc]
        have hmem := bestBy_mem _ _ _ hbb
        rw [TypeB.choicesB, List.mem_filter] at hmem
        exact hmem.1
  refine ⟨hsub, ?_, ?_⟩
  · intro hm
    rw [TypeB.shortest_path_between, hm, if_pos rfl]
  · rw [TypeB.move]
    cases hm : (w.agent i).moved
    case true =>
      rw [if_pos rfl]
      rfl
    case false =>
      have hc : TypeB.shortest_path_between w i
          = some ((bestBy (w.agent i).dest (TypeB.choicesB w i)).getD (w.agent i).pos) := by
        rw [TypeB.shortest_path_between, hm]
        simp
      simp only [Bool.false_eq_true, if_false, hc]
      have hmemc := hsub _ hc
      cases hf : (adjacentCells w.width w.height (w.agent i).pos).find?
          (fun p => decide
            (p = (bestBy (w.agent i).dest (TypeB.choicesB w i)).getD (w.agent i).pos)) with
      | none =>
        exfalso
        have hnone := List.find?_eq_none.mp hf _ hmemc
        simp at hnone
      | some best =>
        dsimp only
        cases ho : occGet w best with
        | some j =>
          dsimp only
          split_ifs <;> rfl
        | none => rfl

/-- The PathFollower totality facts at a concrete populated state. -/
theorem pathfollower_act_total_witness :
    InB Wmix (Wmix.agent 1).pos ∧
    ((∀ c, TypeB.shortest_path_between Wmix 1 = some c →
        c ∈ adjacentCells Wmix.width Wmix.height (Wmix.agent 1).pos) ∧
    ((Wmix.agent 1).moved = true → TypeB.shortest_path_between Wmix 1 = none) ∧
    (TypeB.move Wmix 1 false).isSome) :=
  ⟨by decide, pathfollower_act_total Wmix 1 false (by decide)⟩
